import Mathlib

/-!
# QR-code endpoint: parameter normalisers and raster renderer

A shallow embedding of the two JavaScript sources of the repository,

* `src/api/qrcode/v1.js` (namespace `QRCode.V1`): the handler that hands the
  normalised parameters to the `qrcode` library, and
* `src/server.js` (namespace `QRCode.Server`): the Express handler that draws
  the module matrix on a canvas itself,

together with the part of the JavaScript runtime they rely on (namespace
`QRCode.JS`): query values, `ToString`, `parseInt(_, 10)`, case mapping and the
three regular expressions of the sources.

Conventions.

* A JavaScript string is a Lean `String`; every pattern of the sources only
  accepts ASCII text, so code units and code points coincide where it matters.
* `parseInt` returns a `JS.Number`: `NaN`, an infinity, or a finite
  integer-valued double (held as the `Int` it denotes; `-0` and `+0` are not
  told apart, as `===`, `Math.min` and `Math.max` against a positive bound do
  not tell them apart either).
* The renderer's coordinates are exact rationals: `W / total`, `2.2 * cell`
  and the like are computed in `ℚ`, not rounded to doubles.
-/

set_option exponentiation.threshold 2048
set_option maxRecDepth 100000

namespace QRCode

/-! ## The JavaScript runtime used by the sources -/

namespace JS

/-- A value of `req.query`: absent, a string, or (for repeated or bracketed
keys) an array or a nested object. -/
inductive QueryValue where
  | undefined
  | str (s : String)
  | arr (elems : List QueryValue)
  | obj (fields : List (String × QueryValue))

mutual
/-- The abstract operation `ToString` on a query value. An array is the
comma-joined string forms of its elements, a plain object is
`[object Object]`. -/
def QueryValue.toStr : QueryValue → String
  | .undefined => "undefined"
  | .str s => s
  | .arr elems => ",".intercalate (QueryValue.joinParts elems)
  | .obj _ => "[object Object]"
/-- The pieces `Array.prototype.join` puts between the separators: the string
form of each element, and the empty string for an `undefined` element. -/
def QueryValue.joinParts : List QueryValue → List String
  | [] => []
  | .undefined :: rest => "" :: QueryValue.joinParts rest
  | v :: rest => QueryValue.toStr v :: QueryValue.joinParts rest
end

/-- The expression `(v ?? d).toString()`: only `undefined` is nullish. -/
def nullishToString (v : QueryValue) (d : String) : String :=
  match v with
  | .undefined => d
  | w => w.toStr

/-- The expression `(v || d).toString()`: `undefined` and the empty string are
falsy, arrays and objects are truthy. -/
def falsyToString (v : QueryValue) (d : String) : String :=
  match v with
  | .undefined => d
  | .str s => if s = "" then d else s
  | w => w.toStr

/-- A number as `parseInt` produces it. -/
inductive Number where
  | nan
  | posInf
  | negInf
  | fin (v : Int)
  deriving DecidableEq, Repr

/-- The binary exponent by which a natural number of 2^53 or more is scaled
down to a 53-bit significand (at most `fuel`). -/
def exponentShift : Nat → Nat → Nat
  | 0, _ => 0
  | fuel + 1, k => if k < 2 ^ 53 then 0 else exponentShift fuel (k / 2) + 1

/-- Round a natural number to the nearest double, ties to even; `none` when the
result overflows to infinity. -/
def roundToDouble (k : Nat) : Option Nat :=
  if k < 2 ^ 53 then some k
  else if 2 ^ 1024 - 2 ^ 970 ≤ k then none
  else
    let sh := exponentShift 971 k
    let q := k / 2 ^ sh
    let r := k % 2 ^ sh
    let half := 2 ^ (sh - 1)
    let q1 := if half < r ∨ (r = half ∧ q % 2 = 1) then q + 1 else q
    some (q1 * 2 ^ sh)

/-- The Number value of `sign × mathInt`. -/
def Number.ofSignMagnitude (negative : Bool) (mathInt : Nat) : Number :=
  match roundToDouble mathInt with
  | none => if negative then .negInf else .posInf
  | some r => .fin (if negative then -(r : Int) else (r : Int))

/-- The class `StrWhiteSpaceChar`: white space and line terminators. -/
def isStrWhiteSpaceChar (c : Char) : Bool :=
  [0x09, 0x0A, 0x0B, 0x0C, 0x0D, 0x20, 0xA0, 0x1680, 0x2028, 0x2029, 0x202F, 0x205F,
    0x3000, 0xFEFF].contains c.toNat || (0x2000 ≤ c.toNat && c.toNat ≤ 0x200A)

/-- The value of a decimal digit character. -/
def digitValue (c : Char) : Nat := c.toNat - 48

/-- The mathematical integer written by a run of decimal digits. -/
def mathInt (z : List Char) : Nat :=
  z.foldl (fun acc c => 10 * acc + digitValue c) 0

/-- Remove one leading `+` or `-`, if there is one. -/
def stripSign (s : List Char) : List Char :=
  match s with
  | '-' :: t => t
  | '+' :: t => t
  | _ => s

/-- The call `parseInt(input, 10)` on a string: skip leading white space, read
an optional sign, then the longest run of decimal digits; `NaN` when that run
is empty. -/
def parseInt (input : String) : Number :=
  let s := input.data.dropWhile isStrWhiteSpaceChar
  let negative := s.head? == some '-'
  let z := (stripSign s).takeWhile Char.isDigit
  if z.isEmpty then .nan else Number.ofSignMagnitude negative (mathInt z)

/-- Lower-casing of one character. Besides the ASCII capitals, the Kelvin sign
and the dotted capital I are the only characters whose lower case contains an
ASCII character; any other character outside ASCII is mapped by Unicode to
characters outside ASCII and is kept as it is here. -/
def toLowerCaseChar (c : Char) : List Char :=
  if 'A' ≤ c ∧ c ≤ 'Z' then [Char.ofNat (c.toNat + 32)]
  else if c = Char.ofNat 0x212A then ['k']
  else if c = Char.ofNat 0x0130 then ['i', Char.ofNat 0x0307]
  else [c]

/-- The method `String.prototype.toLowerCase`. -/
def toLowerCase (s : String) : String := ⟨s.data.flatMap toLowerCaseChar⟩

/-- The characters outside ASCII whose upper case contains an ASCII letter. -/
def upperSpecial : List (Nat × List Char) :=
  [(0x00DF, ['S', 'S']), (0x0131, ['I']), (0x0149, [Char.ofNat 0x02BC, 'N']),
   (0x017F, ['S']), (0x01F0, ['J', Char.ofNat 0x030C]),
   (0x1E96, ['H', Char.ofNat 0x0331]), (0x1E97, ['T', Char.ofNat 0x0308]),
   (0x1E98, ['W', Char.ofNat 0x030A]), (0x1E99, ['Y', Char.ofNat 0x030A]),
   (0x1E9A, ['A', Char.ofNat 0x02BE]), (0xFB00, ['F', 'F']), (0xFB01, ['F', 'I']),
   (0xFB02, ['F', 'L']), (0xFB03, ['F', 'F', 'I']), (0xFB04, ['F', 'F', 'L']),
   (0xFB05, ['S', 'T']), (0xFB06, ['S', 'T'])]

/-- Upper-casing of one character: the ASCII small letters, then the
characters of `upperSpecial`; any other character outside ASCII is mapped by
Unicode to characters outside ASCII and is kept as it is here. -/
def toUpperCaseChar (c : Char) : List Char :=
  if 'a' ≤ c ∧ c ≤ 'z' then [Char.ofNat (c.toNat - 32)]
  else match upperSpecial.lookup c.toNat with
    | some u => u
    | none => [c]

/-- The method `String.prototype.toUpperCase`. -/
def toUpperCase (s : String) : String := ⟨s.data.flatMap toUpperCaseChar⟩

/-- The character class `[0-9a-fA-F]`. -/
def isHexChar (c : Char) : Bool :=
  ('0' ≤ c && c ≤ '9') || ('a' ≤ c && c ≤ 'f') || ('A' ≤ c && c ≤ 'F')

/-- The test `/^[0-9a-fA-F]{k}$/.test(s)`, for `k` = 6 and `k` = 3. -/
def testHex (k : Nat) (s : String) : Bool :=
  s.data.length == k && s.data.all isHexChar

/-- The match of `/^(\d{2,4})x(\d{2,4})$/`: the two captured groups, or `none`.
The first group is followed by `x`, so it is the whole leading digit run; the
second group runs to the end of the input. -/
def matchSize (s : String) : Option (String × String) :=
  let g1 := s.data.takeWhile Char.isDigit
  match s.data.dropWhile Char.isDigit with
  | 'x' :: g2 =>
    if 2 ≤ g1.length ∧ g1.length ≤ 4 ∧ g2.all Char.isDigit ∧ 2 ≤ g2.length ∧ g2.length ≤ 4
    then some (⟨g1⟩, ⟨g2⟩) else none
  | _ => none

end JS

open JS

/-! ## `src/api/qrcode/v1.js`: the normalisers -/

namespace V1

/-- The function `parseSize` of `v1.js`. -/
def parseSize (sizeStr : QueryValue) : Int :=
  let fallback : Int := 500
  match sizeStr with
  | .str s =>
    match matchSize (toLowerCase s) with
    | none => fallback
    | some (m1, m2) =>
      match parseInt m1, parseInt m2 with
      | .fin w, .fin h =>
        let side := min w h
        max 128 (min 2048 side)
      | _, _ => fallback
  | _ => fallback

/-- The function `parseColorNoHash` of `v1.js`. -/
def parseColorNoHash (colorStr : QueryValue) : String :=
  match colorStr with
  | .str s =>
    if testHex 6 s then "#" ++ s
    else if testHex 3 s then "#" ++ s
    else "#000000"
  | _ => "#000000"

/-- The function `parseStyle` of `v1.js`. -/
def parseStyle (styleStr : QueryValue) : Int :=
  match parseInt styleStr.toStr with
  | .fin s => if s = 1 ∨ s = 2 ∨ s = 3 then s else 1
  | _ => 1

end V1

/-! ## `src/server.js`: the normalisers -/

namespace Server

/-- The function `parseSize` of `server.js`. -/
def parseSize (sizeStr : QueryValue) : Int :=
  let fallback : Int := 500
  match sizeStr with
  | .str s =>
    match matchSize (toLowerCase s) with
    | none => fallback
    | some (m1, m2) =>
      match parseInt m1, parseInt m2 with
      | .fin w, .fin h => max 128 (min 2048 (min w h))
      | _, _ => fallback
  | _ => fallback

/-- The function `parseColorNoHash` of `server.js`. -/
def parseColorNoHash (colorStr : QueryValue) : String :=
  match colorStr with
  | .str s =>
    if testHex 6 s then "#" ++ s
    else if testHex 3 s then "#" ++ s
    else "#000000"
  | _ => "#000000"

/-- The function `parseStyle` of `server.js`. -/
def parseStyle (styleStr : QueryValue) : Int :=
  match parseInt styleStr.toStr with
  | .fin s => if s = 1 ∨ s = 2 ∨ s = 3 then s else 1
  | _ => 1

end Server

/-! ## Requests, responses and the external collaborators -/

/-- The query parameters the handlers read from `req.query`. -/
structure Query where
  size : QueryValue
  style : QueryValue
  color : QueryValue
  data : QueryValue
  margin : QueryValue
  ecl : QueryValue
  bg : QueryValue

/-- An incoming request: its method and its parsed query. -/
structure Request where
  method : String
  query : Query

/-- The bytes of an encoded PNG image. -/
structure Buffer where
  bytes : List Nat
  deriving DecidableEq

/-- The body written to the response. -/
inductive Body where
  | empty
  | text (s : String)
  | png (buf : Buffer)
  deriving DecidableEq

/-- The response as the handler leaves it: status, the headers it set, body. -/
structure Response where
  statusCode : Nat
  headers : List (String × String)
  body : Body
  deriving DecidableEq

/-- The message of a caught error, `err?.message || "unknown"`. -/
def errMessage (message : String) : String :=
  if message = "" then "unknown" else message

/-! ## `src/api/qrcode/v1.js`: the handler -/

namespace V1

/-- The `color` option handed to the encoder. -/
structure ColorOption where
  dark : String
  light : String
  deriving DecidableEq

/-- The options object of the call `QRCode.toBuffer(text, options)`. -/
structure Options where
  type : String
  width : Int
  margin : Int
  errorCorrectionLevel : String
  color : ColorOption
  deriving DecidableEq

/-- A call to the external encoder. -/
inductive Call where
  | toBuffer (text : String) (options : Options)
  deriving DecidableEq

/-- What a run of the handler leaves behind: the response and the calls it
made to the encoder, in order. -/
structure Outcome where
  response : Response
  calls : List Call

/-- The local `text`: `(data ?? "").toString()`. -/
def text (data : QueryValue) : String := nullishToString data ""

/-- The local `m`: the margin, clamped to 0..10, default 2. -/
def m (margin : QueryValue) : Int :=
  match parseInt margin.toStr with
  | .fin k => max 0 (min 10 k)
  | _ => 2

/-- The local `errorCorrectionLevel`. -/
def errorCorrectionLevel (ecl : QueryValue) : String :=
  let E := toUpperCase (falsyToString ecl "M")
  let allowedECL := ["L", "M", "Q", "H"]
  if allowedECL.contains E then E else "M"

/-- The locals `dark` and `light` after the style branch. -/
def color (qrStyle : Int) (userColor : String) : ColorOption :=
  let dark := userColor
  let light := "#ffffff"
  if qrStyle = 2 then { dark := "#ffffff", light := userColor }
  else if qrStyle = 3 then { dark := dark, light := "#00000000" }
  else { dark := dark, light := light }

/-- The three CORS headers set before anything else. -/
def corsHeaders : List (String × String) :=
  [("Access-Control-Allow-Origin", "*"),
   ("Access-Control-Allow-Methods", "GET,OPTIONS"),
   ("Access-Control-Allow-Headers", "Content-Type")]

/-- The exported handler of `v1.js`. The encoder `QRCode.toBuffer` is the
parameter `toBuffer`; it answers with the PNG bytes or rejects with a
message. -/
def handler (toBuffer : String → Options → Except String Buffer) (req : Request) : Outcome :=
  if req.method = "OPTIONS" then
    ⟨{ statusCode := 204, headers := corsHeaders, body := .empty }, []⟩
  else
    let text := text req.query.data
    if text = "" then
      ⟨{ statusCode := 400, headers := corsHeaders, body := .text "Missing parameter: data" }, []⟩
    else
      let width := parseSize req.query.size
      let userColor := parseColorNoHash req.query.color
      let qrStyle := parseStyle req.query.style
      let options : Options :=
        { type := "png", width := width, margin := m req.query.margin,
          errorCorrectionLevel := errorCorrectionLevel req.query.ecl,
          color := color qrStyle userColor }
      match toBuffer text options with
      | .ok pngBuffer =>
        ⟨{ statusCode := 200,
           headers := corsHeaders ++ [("Content-Type", "image/png"),
             ("Cache-Control", "public, max-age=0, s-maxage=86400")],
           body := .png pngBuffer }, [.toBuffer text options]⟩
      | .error message =>
        ⟨{ statusCode := 500, headers := corsHeaders,
           body := .text ("QR generation error: " ++ errMessage message) },
         [.toBuffer text options]⟩

end V1

/-! ## `src/server.js`: the canvas and the renderer -/

namespace Server

/-- A segment appended to the current path of the drawing context. Angles of
`arc` are counted in turns, so `Math.PI * 2` is `1`. -/
inductive PathCmd where
  | moveTo (x y : ℚ)
  | arcTo (x1 y1 x2 y2 r : ℚ)
  | arc (cx cy r startTurns endTurns : ℚ)
  | closePath
  deriving DecidableEq

/-- A drawing operation that changes pixels of the canvas. -/
inductive DrawOp where
  | fillRect (x y w h : ℚ) (fillStyle : String)
  | clearRect (x y w h : ℚ)
  | fill (path : List PathCmd) (fillStyle : String)
  deriving DecidableEq

/-- The 2D drawing context: the fill colour, the current path and the
operations drawn so far, oldest first. -/
structure Ctx where
  fillStyle : String
  path : List PathCmd
  ops : List DrawOp
  deriving DecidableEq

namespace Ctx

/-- The context of a fresh canvas. -/
def fresh : Ctx := { fillStyle := "#000000", path := [], ops := [] }

/-- The assignment `ctx.fillStyle = c`, for a valid colour `c`. -/
def setFillStyle (ctx : Ctx) (c : String) : Ctx := { ctx with fillStyle := c }

/-- The call `ctx.beginPath()`. -/
def beginPath (ctx : Ctx) : Ctx := { ctx with path := [] }

/-- The call `ctx.moveTo(x, y)`. -/
def moveTo (ctx : Ctx) (x y : ℚ) : Ctx := { ctx with path := ctx.path ++ [.moveTo x y] }

/-- The call `ctx.arcTo(x1, y1, x2, y2, r)`. -/
def arcTo (ctx : Ctx) (x1 y1 x2 y2 r : ℚ) : Ctx :=
  { ctx with path := ctx.path ++ [.arcTo x1 y1 x2 y2 r] }

/-- The call `ctx.arc(cx, cy, r, start, end)`, angles in turns. -/
def arc (ctx : Ctx) (cx cy r startTurns endTurns : ℚ) : Ctx :=
  { ctx with path := ctx.path ++ [.arc cx cy r startTurns endTurns] }

/-- The call `ctx.closePath()`. -/
def closePath (ctx : Ctx) : Ctx := { ctx with path := ctx.path ++ [.closePath] }

/-- The call `ctx.fill()`: fills the current path with the fill colour. -/
def fill (ctx : Ctx) : Ctx := { ctx with ops := ctx.ops ++ [.fill ctx.path ctx.fillStyle] }

/-- The call `ctx.fillRect(x, y, w, h)`. -/
def fillRect (ctx : Ctx) (x y w h : ℚ) : Ctx :=
  { ctx with ops := ctx.ops ++ [.fillRect x y w h ctx.fillStyle] }

/-- The call `ctx.clearRect(x, y, w, h)`. -/
def clearRect (ctx : Ctx) (x y w h : ℚ) : Ctx :=
  { ctx with ops := ctx.ops ++ [.clearRect x y w h] }

end Ctx

/-- The helper `roundRect`: the path of a rounded rectangle. -/
def roundRect (ctx : Ctx) (x y w h r : ℚ) : Ctx :=
  let rr := max 0 (min r (min w h / 2))
  let ctx := ctx.beginPath
  let ctx := ctx.moveTo (x + rr) y
  let ctx := ctx.arcTo (x + w) y (x + w) (y + h) rr
  let ctx := ctx.arcTo (x + w) (y + h) x (y + h) rr
  let ctx := ctx.arcTo x (y + h) x y rr
  let ctx := ctx.arcTo x y (x + w) y rr
  ctx.closePath

/-- The function `isInFinder`. -/
def isInFinder (x y n : Int) : Bool :=
  let inTL := decide (x ≤ 6) && decide (y ≤ 6)
  let inTR := decide (x ≥ n - 7) && decide (y ≤ 6)
  let inBL := decide (x ≤ 6) && decide (y ≥ n - 7)
  inTL || inTR || inBL

/-- The function `drawFinder`. -/
def drawFinder (ctx : Ctx) (px py cell : ℚ) (color : String) (style : Int) : Ctx :=
  let x := px
  let y := py
  let ctx := ctx.setFillStyle color
  -- outer
  let ctx :=
    if style = 3 then (roundRect ctx x y (7 * cell) (7 * cell) (2.2 * cell)).fill
    else ctx.fillRect x y (7 * cell) (7 * cell)
  -- inner white
  let ctx := ctx.setFillStyle "#ffffff"
  let ctx :=
    if style = 3 then (roundRect ctx (x + cell) (y + cell) (5 * cell) (5 * cell) (1.6 * cell)).fill
    else ctx.fillRect (x + cell) (y + cell) (5 * cell) (5 * cell)
  -- center
  let ctx := ctx.setFillStyle color
  if style = 3 then
    (roundRect ctx (x + 2 * cell) (y + 2 * cell) (3 * cell) (3 * cell) (1.2 * cell)).fill
  else ctx.fillRect (x + 2 * cell) (y + 2 * cell) (3 * cell) (3 * cell)

/-- The matrix the external QR generator hands back: `getModuleCount()` and
`isDark(row, col)`. -/
structure ModuleGrid where
  moduleCount : Nat
  isDark : Nat → Nat → Bool

/-- The local `text`: `(data ?? "").toString()`. -/
def text (data : QueryValue) : String := nullishToString data ""

/-- The local `background`. -/
def background (bg : QueryValue) : String :=
  if toLowerCase (falsyToString bg "") = "transparent" then "transparent" else "#ffffff"

/-- The local `m`: the margin, clamped to 0..12, default 2. -/
def m (margin : QueryValue) : Int :=
  match parseInt margin.toStr with
  | .fin k => max 0 (min 12 k)
  | _ => 2

/-- The local `ecLevel`. -/
def ecLevel (ecl : QueryValue) : String :=
  let E := toUpperCase (falsyToString ecl "M")
  let allowedECL := ["L", "M", "Q", "H"]
  if allowedECL.contains E then E else "M"

/-- The local `cell`: `W / total` with `total = n + 2 * m`. -/
def cell (W : Int) (n : Nat) (m : Int) : ℚ :=
  let total : Int := n + 2 * m
  (W : ℚ) / (total : ℚ)

/-- The local `offset`: `m * cell`. -/
def offset (W : Int) (n : Nat) (m : Int) : ℚ := m * cell W n m

/-- The background step: fill the whole canvas, or clear it. -/
def drawBackground (ctx : Ctx) (background : String) (W : Int) : Ctx :=
  if background ≠ "transparent" then
    (ctx.setFillStyle background).fillRect 0 0 W W
  else
    ctx.clearRect 0 0 W W

/-- The three `drawFinder` calls: top-left, top-right, bottom-left. -/
def drawFinders (ctx : Ctx) (n : Nat) (offset cell : ℚ) (dark : String) (S : Int) : Ctx :=
  let ctx := drawFinder ctx (offset + 0 * cell) (offset + 0 * cell) cell dark S
  let ctx := drawFinder ctx (offset + ((n : ℚ) - 7) * cell) (offset + 0 * cell) cell dark S
  drawFinder ctx (offset + 0 * cell) (offset + ((n : ℚ) - 7) * cell) cell dark S

/-- The drawing part of the loop body, for the cell in column `x` and row
`y`: a dot, a rounded square or a square. -/
def drawModule (ctx : Ctx) (S : Int) (offset cell : ℚ) (x y : Nat) : Ctx :=
  let px := offset + x * cell
  let py := offset + y * cell
  if S = 2 then
    let r := cell * 0.42
    let ctx := ctx.beginPath
    let ctx := ctx.arc (px + cell / 2) (py + cell / 2) r 0 1
    ctx.fill
  else if S = 3 then
    (roundRect ctx (px + cell * 0.08) (py + cell * 0.08) (cell * 0.84) (cell * 0.84)
      (cell * 0.28)).fill
  else
    ctx.fillRect px py cell cell

/-- The two nested `for` loops over the rows `y` and the columns `x`. -/
def moduleLoop (ctx : Ctx) (qr : ModuleGrid) (n : Nat) (S : Int) (offset cell : ℚ) : Ctx :=
  (List.range n).foldl (fun ctx y =>
    (List.range n).foldl (fun ctx x =>
      if !qr.isDark y x then ctx
      else if isInFinder x y n then ctx
      else drawModule ctx S offset cell x y) ctx) ctx

/-- Everything the handler draws on the canvas. -/
def paint (qr : ModuleGrid) (W S : Int) (dark background : String) (m : Int) : Ctx :=
  let n := qr.moduleCount
  let ctx := Ctx.fresh
  let ctx := drawBackground ctx background W
  let cell := cell W n m
  let ctx := ctx.setFillStyle dark
  let offset := offset W n m
  let ctx := drawFinders ctx n offset cell dark S
  moduleLoop ctx qr n S offset cell

/-- A call to an external collaborator: the matrix builder
(`qrgen(typeNumber, ecLevel)`, `addData(text)`, `make()`) or the PNG encoder
(`canvas.toBuffer("image/png")` on a canvas of side `W` with the operations
drawn on it). -/
inductive Call where
  | qrgen (typeNumber : Nat) (ecLevel : String) (text : String)
  | toBuffer (W : Int) (ops : List DrawOp)
  deriving DecidableEq

/-- The external collaborators of the handler; each answers or throws a
message. -/
structure Env where
  qrgen : Nat → String → String → Except String ModuleGrid
  toBuffer : Int → List DrawOp → Except String Buffer

/-- What a run of the handler leaves behind: the response and the calls it
made to the collaborators, in order. -/
structure Outcome where
  response : Response
  calls : List Call

/-- The handler of `GET /api/qr-code/v1`. -/
def handler (env : Env) (query : Query) : Outcome :=
  let text := text query.data
  if text = "" then
    ⟨{ statusCode := 400, headers := [], body := .text "Missing parameter: data" }, []⟩
  else
    let W := parseSize query.size
    let S := parseStyle query.style
    let dark := parseColorNoHash query.color
    let background := background query.bg
    let m := m query.margin
    let ecLevel := ecLevel query.ecl
    match env.qrgen 0 ecLevel text with
    | .error message =>
      ⟨{ statusCode := 500, headers := [],
         body := .text ("QR canvas error: " ++ errMessage message) },
       [.qrgen 0 ecLevel text]⟩
    | .ok qr =>
      let ctx := paint qr W S dark background m
      match env.toBuffer W ctx.ops with
      | .error message =>
        ⟨{ statusCode := 500, headers := [],
           body := .text ("QR canvas error: " ++ errMessage message) },
         [.qrgen 0 ecLevel text, .toBuffer W ctx.ops]⟩
      | .ok buf =>
        ⟨{ statusCode := 200,
           headers := [("Content-Type", "image/png"),
             ("Cache-Control", "public, max-age=0, s-maxage=86400")],
           body := .png buf },
         [.qrgen 0 ecLevel text, .toBuffer W ctx.ops]⟩

end Server

/-! ## Vocabulary of the properties -/

namespace Claims

/-- One dimension of a size string: 2 to 4 decimal digits. -/
def IsDimension (d : List Char) : Prop :=
  2 ≤ d.length ∧ d.length ≤ 4 ∧ ∀ c ∈ d, c.isDigit = true

instance (d : List Char) : Decidable (IsDimension d) := by
  unfold IsDimension; infer_instance

/-- The number a run of decimal digits denotes, most significant digit
first. -/
def decimalValue (d : List Char) : Nat := Nat.ofDigits 10 (d.reverse.map digitValue)

/-- A string of the form `W x H`: a dimension, the separator `x` or `X` at
some position `i`, a dimension, and nothing else. -/
def IsSizeString (s : String) : Prop :=
  ∃ i ∈ List.range s.data.length,
    IsDimension (s.data.take i) ∧ (s.data[i]? = some 'x' ∨ s.data[i]? = some 'X') ∧
      IsDimension (s.data.drop (i + 1))

instance (s : String) : Decidable (IsSizeString s) := by
  unfold IsSizeString; infer_instance

/-- A string of exactly 3 or exactly 6 hexadecimal digits. -/
def IsHexColor (s : String) : Prop :=
  (s.data.length = 3 ∨ s.data.length = 6) ∧ ∀ c ∈ s.data, c ∈ "0123456789abcdefABCDEF".data

instance (s : String) : Decidable (IsHexColor s) := by
  unfold IsHexColor; infer_instance

end Claims

namespace Claims

/-- The string begins, after optional white space and an optional `+`, with a
run of decimal digits denoting `k`; the run is as long as it can be, and
anything may follow it. -/
def LeadsWithInteger (s : String) (k : Nat) : Prop :=
  ∃ ws sign ds rest : List Char, s.data = ws ++ (sign ++ (ds ++ rest)) ∧
    (∀ c ∈ ws, isStrWhiteSpaceChar c = true) ∧ (sign = [] ∨ sign = ['+']) ∧
    ds ≠ [] ∧ (∀ c ∈ ds, c.isDigit = true) ∧
    (∀ c, rest.head? = some c → c.isDigit = false) ∧ decimalValue ds = k

end Claims

namespace Claims

/-- The strings that equal one of `L`, `M`, `Q`, `H` when letter case is
ignored. -/
def levelSpellings : List String := ["L", "M", "Q", "H", "l", "m", "q", "h"]

end Claims

namespace Claims

open Server

/-- The cells of an `n x n` grid as pairs (row, column), row by row. -/
def gridCells (n : Nat) : List (Nat × Nat) := List.product (List.range n) (List.range n)

/-- The cell in column `x` and row `y` lies in the 7x7 block whose top-left
corner is in column `cx` and row `cy`. -/
def inBlock (cx cy x y : Nat) : Prop := cx ≤ x ∧ x < cx + 7 ∧ cy ≤ y ∧ y < cy + 7

instance (cx cy x y : Nat) : Decidable (inBlock cx cy x y) := by
  unfold inBlock; infer_instance

/-- The cell in column `x` and row `y` lies in one of the three finder blocks,
whose top-left corners are `(0, 0)`, `(n - 7, 0)` and `(0, n - 7)`. -/
def inFinderBlock (n x y : Nat) : Prop :=
  inBlock 0 0 x y ∨ inBlock (n - 7) 0 x y ∨ inBlock 0 (n - 7) x y

instance (n x y : Nat) : Decidable (inFinderBlock n x y) := by
  unfold inFinderBlock; infer_instance

/-- The operations the loop body draws for the cell in column `x` and row `y`
when the fill colour is `fillStyle`. -/
def cellOps (S : Int) (offset cell : ℚ) (fillStyle : String) (x y : Nat) : List DrawOp :=
  (drawModule { fillStyle := fillStyle, path := [], ops := [] } S offset cell x y).ops

/-- The operations one call of `drawFinder` draws. -/
def finderOps (px py cell : ℚ) (color : String) (style : Int) : List DrawOp :=
  (drawFinder Ctx.fresh px py cell color style).ops

/-- The points that bound a path segment: the end point of `moveTo`, the two
control points of `arcTo` (for a radius that fits the corner, as `roundRect`
clamps it, the segment stays in the triangle they span with the current
point), and the corners of the square around the circle of `arc`. -/
def pathExtent : PathCmd → List (ℚ × ℚ)
  | .moveTo x y => [(x, y)]
  | .arcTo x1 y1 x2 y2 _ => [(x1, y1), (x2, y2)]
  | .arc cx cy r _ _ => [(cx - r, cy - r), (cx + r, cy + r)]
  | .closePath => []

/-- The points that bound a drawing operation. -/
def opExtent : DrawOp → List (ℚ × ℚ)
  | .fillRect x y w h _ => [(x, y), (x + w, y + h)]
  | .clearRect x y w h => [(x, y), (x + w, y + h)]
  | .fill path _ => path.flatMap pathExtent

/-- The bounding box of the operation lies in `[x0, x1] x [y0, y1]`. -/
def inBox (x0 x1 y0 y1 : ℚ) (op : DrawOp) : Prop :=
  ∀ p ∈ opExtent op, x0 ≤ p.1 ∧ p.1 ≤ x1 ∧ y0 ≤ p.2 ∧ p.2 ≤ y1

instance (x0 x1 y0 y1 : ℚ) (op : DrawOp) : Decidable (inBox x0 x1 y0 y1 op) := by
  unfold inBox; infer_instance

end Claims

namespace Claims

open Server

/-- The path `roundRect` leaves as the current path: a rounded rectangle at
`(x, y)` of width `w` and height `h`, asked for with corner radius `r`. -/
def roundedRectPath (x y w h r : ℚ) : List PathCmd := (roundRect Ctx.fresh x y w h r).path

/-- The radius `rr` that `roundRect` computes from the requested radius `r`
and the sides `w` and `h`. -/
def clampedRadius (w h r : ℚ) : ℚ := max 0 (min r (min w h / 2))

/-- The radii of the corner arcs of a path. -/
def cornerRadii : List PathCmd → List ℚ
  | [] => []
  | .arcTo _ _ _ _ r :: rest => r :: cornerRadii rest
  | _ :: rest => cornerRadii rest

/-- The colour a drawing operation fills with; clearing has none. -/
def opColour : DrawOp → Option String
  | .fillRect _ _ _ _ c => some c
  | .clearRect _ _ _ _ => none
  | .fill _ c => some c

/-- The radii of the corner arcs of a filled path; none for a rectangle. -/
def opCornerRadii : DrawOp → List ℚ
  | .fill path _ => cornerRadii path
  | _ => []

/-- The centre of the square of side `side` whose top-left corner is
`(x, y)`. -/
def squareCentre (x y side : ℚ) : ℚ × ℚ := (x + side / 2, y + side / 2)

/-- The finder and module operations of the raster path, in drawing order:
the finders at the top left, top right and bottom left, then the cells that
are dark and for which `isInFinder` is false, row by row. -/
def symbolOps (qr : ModuleGrid) (W S : Int) (dark : String) (m : Int) : List DrawOp :=
  finderOps (offset W qr.moduleCount m + 0 * cell W qr.moduleCount m)
      (offset W qr.moduleCount m + 0 * cell W qr.moduleCount m)
      (cell W qr.moduleCount m) dark S ++
    finderOps (offset W qr.moduleCount m + ((qr.moduleCount : ℚ) - 7) * cell W qr.moduleCount m)
      (offset W qr.moduleCount m + 0 * cell W qr.moduleCount m)
      (cell W qr.moduleCount m) dark S ++
    finderOps (offset W qr.moduleCount m + 0 * cell W qr.moduleCount m)
      (offset W qr.moduleCount m + ((qr.moduleCount : ℚ) - 7) * cell W qr.moduleCount m)
      (cell W qr.moduleCount m) dark S ++
    ((gridCells qr.moduleCount).filter
      (fun p => qr.isDark p.1 p.2 && !isInFinder p.2 p.1 qr.moduleCount)).flatMap
      (fun p => cellOps S (offset W qr.moduleCount m) (cell W qr.moduleCount m) dark p.2 p.1)

/-- Two strings are equal when the case of the ASCII letters is ignored. -/
def equalsIgnoringCase (s t : String) : Prop :=
  s.data.map Char.toLower = t.data.map Char.toLower

instance (s t : String) : Decidable (equalsIgnoringCase s t) := by
  unfold equalsIgnoringCase; infer_instance

end Claims

/-! ## Characters and digit runs -/

theorem char_le_iff (a c : Char) : a ≤ c ↔ a.toNat ≤ c.toNat := Iff.rfl

theorem char_mem_range (c : Char) (lo hi : Nat) (h1 : lo ≤ c.toNat) (h2 : c.toNat ≤ hi) :
    c ∈ (List.range' lo (hi + 1 - lo)).map Char.ofNat := by
  rw [List.mem_map]
  refine ⟨c.toNat, ?_, Char.ofNat_toNat c⟩
  rw [List.mem_range'_1]
  omega

theorem isDigit_bounds (c : Char) : c.isDigit = true ↔ 48 ≤ c.toNat ∧ c.toNat ≤ 57 := by
  simp [Char.isDigit, UInt32.le_def]
  rfl

theorem isDigit_iff (c : Char) : c.isDigit = true ↔ c ∈ "0123456789".data := by
  constructor
  · intro h
    have h1 := (isDigit_bounds c).1 h
    have := char_mem_range c 48 57 h1.1 h1.2
    simp [List.range'] at this
    rcases this with h | h | h | h | h | h | h | h | h | h <;> subst h <;> decide
  · intro h
    fin_cases h <;> decide

theorem isHexChar_iff (c : Char) : isHexChar c = true ↔ c ∈ "0123456789abcdefABCDEF".data := by
  constructor
  · intro h
    simp only [isHexChar, Bool.or_eq_true, Bool.and_eq_true, decide_eq_true_eq, char_le_iff] at h
    rcases h with (h | h) | h
    · have := char_mem_range c _ _ h.1 h.2
      simp [List.range'] at this
      rcases this with h | h | h | h | h | h | h | h | h | h <;> subst h <;> decide
    · have := char_mem_range c _ _ h.1 h.2
      simp [List.range'] at this
      rcases this with h | h | h | h | h | h <;> subst h <;> decide
    · have := char_mem_range c _ _ h.1 h.2
      simp [List.range'] at this
      rcases this with h | h | h | h | h | h <;> subst h <;> decide
  · intro h
    fin_cases h <;> decide

/-- Lower-casing leaves a decimal digit alone. -/
theorem toLowerCaseChar_digit (c : Char) (h : c.isDigit = true) : toLowerCaseChar c = [c] := by
  rw [isDigit_iff] at h
  fin_cases h <;> decide

/-- A character whose lower case starts with a decimal digit is that digit. -/
theorem toLowerCaseChar_head_digit (c a : Char) (rest : List Char)
    (h : toLowerCaseChar c = a :: rest) (ha : a.isDigit = true) : c = a ∧ rest = [] := by
  unfold toLowerCaseChar at h
  split_ifs at h with h1 h2 h3
  · exfalso
    rw [char_le_iff, char_le_iff] at h1
    have := char_mem_range c _ _ h1.1 h1.2
    simp [List.range'] at this
    rcases this with e | e | e | e | e | e | e | e | e | e | e | e | e | e | e | e | e | e | e
      | e | e | e | e | e | e | e <;> subst e <;> simp at h <;> obtain ⟨h, -⟩ := h <;>
      subst h <;> revert ha <;> decide
  · exfalso
    simp at h
    obtain ⟨h, -⟩ := h
    subst h
    revert ha
    decide
  · exfalso
    simp at h
    obtain ⟨h, -⟩ := h
    subst h
    revert ha
    decide
  · simp at h
    exact h

/-- A character whose lower case starts with `x` is `x` or `X`. -/
theorem toLowerCaseChar_head_x (c : Char) (rest : List Char)
    (h : toLowerCaseChar c = 'x' :: rest) : (c = 'x' ∨ c = 'X') ∧ rest = [] := by
  unfold toLowerCaseChar at h
  split_ifs at h with h1 h2 h3
  · rw [char_le_iff, char_le_iff] at h1
    have := char_mem_range c _ _ h1.1 h1.2
    simp [List.range'] at this
    rcases this with e | e | e | e | e | e | e | e | e | e | e | e | e | e | e | e | e | e | e
      | e | e | e | e | e | e | e <;> subst e <;> simp at h
    exact ⟨Or.inr (by decide), h⟩
  · simp at h
  · simp at h
  · simp at h
    exact ⟨Or.inl h.1, h.2⟩

/-- Lower-casing leaves a run of decimal digits alone. -/
theorem flatMap_lower_digits (l : List Char) (h : ∀ c ∈ l, c.isDigit = true) :
    l.flatMap toLowerCaseChar = l := by
  induction l with
  | nil => rfl
  | cons c t ih =>
    rw [List.flatMap_cons, toLowerCaseChar_digit c (h c (List.mem_cons_self _ _)),
      ih (fun d hd => h d (List.mem_cons_of_mem _ hd))]
    rfl

/-- A string whose lower case is a run of decimal digits is that run. -/
theorem eq_of_flatMap_lower_digits (l g : List Char) (hg : ∀ c ∈ g, c.isDigit = true)
    (h : l.flatMap toLowerCaseChar = g) : l = g := by
  induction l generalizing g with
  | nil => simpa using h.symm
  | cons c t ih =>
    rw [List.flatMap_cons] at h
    cases hc : toLowerCaseChar c with
    | nil =>
      exfalso
      unfold toLowerCaseChar at hc
      split_ifs at hc
    | cons a rest =>
      rw [hc] at h
      cases g with
      | nil => simp at h
      | cons b g1 =>
        simp only [List.cons_append, List.cons.injEq] at h
        obtain ⟨hab, h⟩ := h
        subst hab
        obtain ⟨hca, hrest⟩ := toLowerCaseChar_head_digit c a rest hc (hg a (List.mem_cons_self _ _))
        subst hca hrest
        rw [ih g1 (fun d hd => hg d (List.mem_cons_of_mem _ hd)) (by simpa using h)]

/-- A string whose lower case is `g1 x g2` with digit runs `g1` and `g2` is
`g1`, then `x` or `X`, then `g2`. -/
theorem split_of_flatMap_lower (l g1 g2 : List Char) (h1 : ∀ c ∈ g1, c.isDigit = true)
    (h2 : ∀ c ∈ g2, c.isDigit = true) (h : l.flatMap toLowerCaseChar = g1 ++ 'x' :: g2) :
    ∃ sep, (sep = 'x' ∨ sep = 'X') ∧ l = g1 ++ sep :: g2 := by
  induction l generalizing g1 with
  | nil => simp at h
  | cons c t ih =>
    rw [List.flatMap_cons] at h
    cases hc : toLowerCaseChar c with
    | nil =>
      exfalso
      unfold toLowerCaseChar at hc
      split_ifs at hc
    | cons a rest =>
      rw [hc] at h
      cases g1 with
      | nil =>
        simp only [List.cons_append, List.nil_append, List.cons.injEq] at h
        obtain ⟨hab, h⟩ := h
        subst hab
        obtain ⟨hcx, hrest⟩ := toLowerCaseChar_head_x c rest hc
        subst hrest
        refine ⟨c, hcx, ?_⟩
        rw [eq_of_flatMap_lower_digits t g2 h2 (by simpa using h)]
        rfl
      | cons b g =>
        simp only [List.cons_append, List.cons.injEq] at h
        obtain ⟨hab, h⟩ := h
        subst hab
        obtain ⟨hca, hrest⟩ := toLowerCaseChar_head_digit c a rest hc (h1 a (List.mem_cons_self _ _))
        subst hca hrest
        obtain ⟨sep, hsep, ht⟩ := ih g (fun d hd => h1 d (List.mem_cons_of_mem _ hd))
          (by simpa using h)
        exact ⟨sep, hsep, by rw [ht]; rfl⟩

/-- The lower case of `w sep h` with digit runs `w`, `h` and separator `x` or
`X` is `w x h`. -/
theorem toLowerCase_size (w h : List Char) (sep : Char) (hw : ∀ c ∈ w, c.isDigit = true)
    (hh : ∀ c ∈ h, c.isDigit = true) (hsep : sep = 'x' ∨ sep = 'X') :
    toLowerCase ⟨w ++ sep :: h⟩ = ⟨w ++ 'x' :: h⟩ := by
  have hs : toLowerCaseChar sep = ['x'] := by
    rcases hsep with rfl | rfl <;> decide
  simp only [toLowerCase, List.flatMap_append, List.flatMap_cons, flatMap_lower_digits w hw,
    flatMap_lower_digits h hh, hs]
  rfl

/-- What a successful match of the size pattern says about the subject. -/
theorem matchSize_some (t m1 m2 : String) (h : matchSize t = some (m1, m2)) :
    t.data = m1.data ++ 'x' :: m2.data ∧ Claims.IsDimension m1.data ∧
      Claims.IsDimension m2.data := by
  unfold matchSize at h
  split at h
  · rename_i g2 hd
    dsimp only at h
    split_ifs at h with hc
    simp only [Option.some.injEq, Prod.mk.injEq] at h
    obtain ⟨rfl, rfl⟩ := h
    refine ⟨?_, ⟨hc.1, hc.2.1, ?_⟩, ⟨hc.2.2.2.1, hc.2.2.2.2, ?_⟩⟩
    · rw [← hd]
      exact (List.takeWhile_append_dropWhile _ _).symm
    · intro c hcm
      exact (List.mem_takeWhile_imp hcm)
    · intro c hcm
      exact (List.all_eq_true.1 hc.2.2.1) c hcm
  · simp at h

/-- The size pattern matches `w x h` for dimensions `w` and `h`. -/
theorem matchSize_of_form (w h : List Char) (hw : Claims.IsDimension w)
    (hh : Claims.IsDimension h) : matchSize ⟨w ++ 'x' :: h⟩ = some (⟨w⟩, ⟨h⟩) := by
  have hx : ¬ (Char.isDigit 'x' = true) := by decide
  have e1 : (w ++ 'x' :: h).takeWhile Char.isDigit = w := by
    rw [List.takeWhile_append_of_pos hw.2.2, List.takeWhile_cons_of_neg hx, List.append_nil]
  have e2 : (w ++ 'x' :: h).dropWhile Char.isDigit = 'x' :: h := by
    rw [List.dropWhile_append_of_pos hw.2.2, List.dropWhile_cons_of_neg hx]
  unfold matchSize
  simp only [e1, e2]
  rw [if_pos]
  exact ⟨hw.1, hw.2.1, List.all_eq_true.2 hh.2.2, hh.1, hh.2.1⟩

/-! ## Numbers: digit runs, rounding and `parseInt` -/

theorem digitValue_lt (c : Char) (h : c.isDigit = true) : digitValue c < 10 := by
  have := (isDigit_bounds c).1 h
  unfold digitValue
  omega

/-- The fold of `parseInt` computes the number the digit run denotes. -/
theorem mathInt_eq_decimalValue (z : List Char) : mathInt z = Claims.decimalValue z := by
  induction z using List.reverseRecOn with
  | nil => rfl
  | append_singleton t c ih =>
    unfold mathInt Claims.decimalValue at *
    rw [List.foldl_append, List.reverse_append]
    simp only [List.foldl_cons, List.foldl_nil, List.reverse_cons, List.reverse_nil,
      List.nil_append, List.singleton_append, List.map_cons, Nat.ofDigits_cons]
    rw [ih]
    ring

theorem mathInt_lt (z : List Char) (h : ∀ c ∈ z, c.isDigit = true) :
    mathInt z < 10 ^ z.length := by
  rw [mathInt_eq_decimalValue]
  unfold Claims.decimalValue
  have := Nat.ofDigits_lt_base_pow_length (b := 10) (l := z.reverse.map digitValue) (by norm_num)
    (by
      intro x hx
      simp only [List.mem_map, List.mem_reverse] at hx
      obtain ⟨c, hc, rfl⟩ := hx
      exact digitValue_lt c (h c hc))
  simpa using this

theorem roundToDouble_small (k : Nat) (h : k < 2 ^ 53) : roundToDouble k = some k := by
  unfold roundToDouble
  rw [if_pos h]

theorem roundToDouble_overflow (k : Nat) (h : 2 ^ 1024 - 2 ^ 970 ≤ k) :
    roundToDouble k = none := by
  unfold roundToDouble
  have h53 : ¬ k < 2 ^ 53 := by
    have : (2 : Nat) ^ 53 ≤ 2 ^ 1024 - 2 ^ 970 := by norm_num
    omega
  rw [if_neg h53, if_pos h]

theorem exponentShift_quotient (fuel k : Nat) (h : 2 ^ 53 ≤ k) :
    2 ^ 52 ≤ k / 2 ^ exponentShift fuel k := by
  induction fuel generalizing k with
  | zero =>
    simp only [exponentShift, pow_zero, Nat.div_one]
    omega
  | succ fuel ih =>
    have hk : ¬ k < 2 ^ 53 := by omega
    simp only [exponentShift, if_neg hk]
    rw [show 2 ^ (exponentShift fuel (k / 2) + 1) = 2 * 2 ^ exponentShift fuel (k / 2) by
      rw [pow_succ, Nat.mul_comm], ← Nat.div_div_eq_div_mul]
    by_cases h2 : 2 ^ 53 ≤ k / 2
    · exact ih (k / 2) h2
    · have hz : exponentShift fuel (k / 2) = 0 := by
        cases fuel with
        | zero => rfl
        | succ f => simp only [exponentShift]; rw [if_pos (by omega)]
      rw [hz]
      simp only [pow_zero, Nat.div_one]
      omega

/-- With enough fuel the scaled-down number fits 53 bits. -/
theorem exponentShift_fits (fuel k : Nat) (h : k < 2 ^ (53 + fuel)) :
    k / 2 ^ exponentShift fuel k < 2 ^ 53 := by
  induction fuel generalizing k with
  | zero => simpa [exponentShift] using h
  | succ fuel ih =>
    simp only [exponentShift]
    split_ifs with hk
    · simpa using hk
    · rw [show 2 ^ (exponentShift fuel (k / 2) + 1) = 2 * 2 ^ exponentShift fuel (k / 2) by
        rw [pow_succ, Nat.mul_comm], ← Nat.div_div_eq_div_mul]
      apply ih
      rw [show 53 + (fuel + 1) = (53 + fuel) + 1 by omega, pow_succ] at h
      omega

/-- A number of 2^53 or more rounds to a double of 2^52 or more. -/
theorem roundToDouble_large (k r : Nat) (h : 2 ^ 53 ≤ k) (hr : roundToDouble k = some r) :
    2 ^ 52 ≤ r := by
  unfold roundToDouble at hr
  have hk : ¬ k < 2 ^ 53 := by omega
  rw [if_neg hk] at hr
  split_ifs at hr with h1
  simp only [Option.some.injEq] at hr
  have hq := exponentShift_quotient 971 k h
  have hp : 1 ≤ 2 ^ exponentShift 971 k := Nat.one_le_two_pow
  rw [← hr]
  split_ifs
  · calc 2 ^ 52 ≤ (k / 2 ^ exponentShift 971 k + 1) * 1 := by omega
      _ ≤ _ := Nat.mul_le_mul_left _ hp
  · calc 2 ^ 52 ≤ (k / 2 ^ exponentShift 971 k) * 1 := by omega
      _ ≤ _ := Nat.mul_le_mul_left _ hp

/-- Below the overflow threshold the rounding is finite. -/
theorem roundToDouble_finite (k : Nat) (h : k < 2 ^ 1024 - 2 ^ 970) :
    ∃ r, roundToDouble k = some r := by
  unfold roundToDouble
  split_ifs with h1 h2
  · exact ⟨_, rfl⟩
  · omega
  · exact ⟨_, rfl⟩

theorem not_white_of_digit (c : Char) (h : c.isDigit = true) : isStrWhiteSpaceChar c = false := by
  rw [isDigit_iff] at h
  fin_cases h <;> decide

theorem stripSign_of_head (l : List Char) (h : ∀ c, l.head? = some c → c ≠ '+' ∧ c ≠ '-') :
    stripSign l = l := by
  unfold stripSign
  split
  · exact absurd rfl (h '-' rfl).2
  · exact absurd rfl (h '+' rfl).1
  · rfl

/-- The shape `parseInt` reads a number from: white space, an optional sign, a
non-empty digit run, and a rest that does not go on with a digit. -/
theorem parseInt_number (ws sign ds rest : List Char)
    (hws : ∀ c ∈ ws, isStrWhiteSpaceChar c = true)
    (hsign : sign = [] ∨ sign = ['+'] ∨ sign = ['-'])
    (hne : ds ≠ []) (hds : ∀ c ∈ ds, c.isDigit = true)
    (hrest : ∀ c, rest.head? = some c → c.isDigit = false) :
    parseInt ⟨ws ++ (sign ++ (ds ++ rest))⟩ =
      Number.ofSignMagnitude (decide (sign = ['-'])) (mathInt ds) := by
  obtain ⟨d, ds1, rfl⟩ := List.exists_cons_of_ne_nil hne
  have hd : d.isDigit = true := hds d (List.mem_cons_self _ _)
  have hdw : ¬ (isStrWhiteSpaceChar d = true) := by simp [not_white_of_digit d hd]
  have htake : ((d :: ds1) ++ rest).takeWhile Char.isDigit = d :: ds1 := by
    rw [List.takeWhile_append_of_pos hds]
    cases rest with
    | nil => simp
    | cons c t =>
      have := hrest c rfl
      rw [List.takeWhile_cons_of_neg (by simp [this]), List.append_nil]
  have hdp : d ≠ '+' := by rintro rfl; exact absurd hd (by decide)
  have hdm : d ≠ '-' := by rintro rfl; exact absurd hd (by decide)
  unfold parseInt
  rcases hsign with rfl | rfl | rfl
  · have e : (ws ++ ([] ++ ((d :: ds1) ++ rest))).dropWhile isStrWhiteSpaceChar
        = (d :: ds1) ++ rest := by
      rw [List.dropWhile_append_of_pos hws]
      simp only [List.nil_append, List.cons_append]
      rw [List.dropWhile_cons_of_neg hdw]
    have hb : stripSign ((d :: ds1) ++ rest) = (d :: ds1) ++ rest :=
      stripSign_of_head _ (by
        intro c hc
        simp only [List.cons_append, List.head?_cons, Option.some.injEq] at hc
        subst hc
        exact ⟨hdp, hdm⟩)
    simp only [e, hb, htake]
    have hbeq : (d == '-') = false := by simp [hdm]
    simp [hbeq]
  · have e : (ws ++ (['+'] ++ ((d :: ds1) ++ rest))).dropWhile isStrWhiteSpaceChar
        = '+' :: ((d :: ds1) ++ rest) := by
      rw [List.dropWhile_append_of_pos hws]
      simp only [List.singleton_append]
      rw [List.dropWhile_cons_of_neg (by decide)]
    have hb : stripSign ('+' :: ((d :: ds1) ++ rest)) = (d :: ds1) ++ rest := rfl
    simp only [e, hb, htake]
    simp
  · have e : (ws ++ (['-'] ++ ((d :: ds1) ++ rest))).dropWhile isStrWhiteSpaceChar
        = '-' :: ((d :: ds1) ++ rest) := by
      rw [List.dropWhile_append_of_pos hws]
      simp only [List.singleton_append]
      rw [List.dropWhile_cons_of_neg (by decide)]
    have hb : stripSign ('-' :: ((d :: ds1) ++ rest)) = (d :: ds1) ++ rest := rfl
    simp only [e, hb, htake]
    simp

/-- On a run of at most 15 decimal digits `parseInt` is exact. -/
theorem parseInt_digits (z : List Char) (hne : z ≠ []) (hz : ∀ c ∈ z, c.isDigit = true)
    (hlen : z.length ≤ 15) : parseInt ⟨z⟩ = .fin (Claims.decimalValue z) := by
  have h := parseInt_number [] [] z [] (by simp) (Or.inl rfl) hne hz (by simp)
  simp only [List.nil_append, List.append_nil] at h
  rw [h]
  have hlt : mathInt z < 2 ^ 53 := by
    have h1 := mathInt_lt z hz
    have h2 : 10 ^ z.length ≤ 10 ^ 15 := Nat.pow_le_pow_right (by norm_num) hlen
    have h3 : (10 : Nat) ^ 15 < 2 ^ 53 := by norm_num
    omega
  unfold Number.ofSignMagnitude
  rw [roundToDouble_small _ hlt, mathInt_eq_decimalValue]
  simp

/-! ## `parseSize` -/

/-- A string `w sep h` with dimensions `w`, `h` and separator `x` or `X` is a
size string. -/
theorem isSizeString_of_form (s : String) (w h : List Char) (sep : Char)
    (hs : s.data = w ++ sep :: h) (hw : Claims.IsDimension w) (hh : Claims.IsDimension h)
    (hsep : sep = 'x' ∨ sep = 'X') : Claims.IsSizeString s := by
  refine ⟨w.length, ?_, ?_, ?_, ?_⟩
  · rw [List.mem_range, hs, List.length_append, List.length_cons]
    omega
  · rw [hs, List.take_left]
    exact hw
  · rw [hs]
    rw [List.getElem?_append_right (le_refl _)]
    rcases hsep with rfl | rfl
    · left; simp
    · right; simp
  · rw [hs]
    have : (w ++ sep :: h).drop (w.length + 1) = h := by
      rw [← List.drop_drop, List.drop_left]
      rfl
    rw [this]
    exact hh

/-- A size string is a dimension, then `x` or `X`, then a dimension. -/
theorem isSizeString_iff (s : String) :
    Claims.IsSizeString s ↔ ∃ (w h : List Char) (sep : Char), s.data = w ++ sep :: h ∧
      Claims.IsDimension w ∧ Claims.IsDimension h ∧ (sep = 'x' ∨ sep = 'X') := by
  constructor
  · rintro ⟨i, hi, hw, hsep, hh⟩
    rw [List.mem_range] at hi
    refine ⟨s.data.take i, s.data.drop (i + 1), s.data[i], ?_, hw, hh, ?_⟩
    · rw [← List.drop_eq_getElem_cons hi, List.take_append_drop]
    · rw [List.getElem?_eq_getElem hi] at hsep
      simpa using hsep
  · rintro ⟨w, h, sep, hs, hw, hh, hsep⟩
    exact isSizeString_of_form s w h sep hs hw hh hsep

/-- When the size pattern matches the lower-cased input, the input is a size
string. -/
theorem isSizeString_of_match (s m1 m2 : String)
    (h : matchSize (toLowerCase s) = some (m1, m2)) : Claims.IsSizeString s := by
  obtain ⟨hdata, h1, h2⟩ := matchSize_some _ _ _ h
  obtain ⟨sep, hsep, hs⟩ := split_of_flatMap_lower s.data m1.data m2.data h1.2.2 h2.2.2 hdata
  exact isSizeString_of_form s _ _ sep hs h1 h2 hsep

theorem V1.parseSize_eq_server (v : QueryValue) : V1.parseSize v = Server.parseSize v := rfl

theorem server_parseSize_form (w h : List Char) (sep : Char)
    (hw : Claims.IsDimension w) (hh : Claims.IsDimension h) (hsep : sep = 'x' ∨ sep = 'X') :
    Server.parseSize (.str ⟨w ++ sep :: h⟩) =
      max 128 (min 2048 (min (Claims.decimalValue w : Int) (Claims.decimalValue h))) := by
  have hwne : w ≠ [] := by
    intro e
    have := hw.1
    rw [e] at this
    simp at this
  have hhne : h ≠ [] := by
    intro e
    have := hh.1
    rw [e] at this
    simp at this
  unfold Server.parseSize
  simp only [toLowerCase_size w h sep hw.2.2 hh.2.2 hsep, matchSize_of_form w h hw hh,
    parseInt_digits w hwne hw.2.2 (by have := hw.2.1; omega),
    parseInt_digits h hhne hh.2.2 (by have := hh.2.1; omega)]

theorem server_parseSize_malformed (v : QueryValue)
    (h : ∀ s, v = .str s → ¬ Claims.IsSizeString s) : Server.parseSize v = 500 := by
  cases v with
  | str s =>
    unfold Server.parseSize
    cases hm : matchSize (toLowerCase s) with
    | none => simp only [hm]
    | some p =>
      obtain ⟨m1, m2⟩ := p
      exact absurd (isSizeString_of_match s m1 m2 hm) (h s rfl)
  | undefined => rfl
  | arr _ => rfl
  | obj _ => rfl

/-! ## `parseColorNoHash` -/

theorem testHex_iff (k : Nat) (s : String) :
    testHex k s = true ↔
      s.data.length = k ∧ ∀ c ∈ s.data, c ∈ "0123456789abcdefABCDEF".data := by
  unfold testHex
  simp only [Bool.and_eq_true, beq_iff_eq, List.all_eq_true, isHexChar_iff]

theorem server_parseColorNoHash_hex (s : String) (h : Claims.IsHexColor s) :
    Server.parseColorNoHash (.str s) = "#" ++ s := by
  unfold Server.parseColorNoHash
  rcases h.1 with h3 | h6
  · have : testHex 3 s = true := (testHex_iff 3 s).2 ⟨h3, h.2⟩
    simp only [this, if_true]
    split_ifs <;> rfl
  · have : testHex 6 s = true := (testHex_iff 6 s).2 ⟨h6, h.2⟩
    simp only [this, if_true]

theorem server_parseColorNoHash_other (v : QueryValue)
    (h : ∀ s, v = .str s → ¬ Claims.IsHexColor s) : Server.parseColorNoHash v = "#000000" := by
  cases v with
  | str s =>
    have hs := h s rfl
    unfold Server.parseColorNoHash
    have h6 : testHex 6 s = false := by
      rw [Bool.eq_false_iff]
      intro ht
      exact hs ⟨Or.inr ((testHex_iff 6 s).1 ht).1, ((testHex_iff 6 s).1 ht).2⟩
    have h3 : testHex 3 s = false := by
      rw [Bool.eq_false_iff]
      intro ht
      exact hs ⟨Or.inl ((testHex_iff 3 s).1 ht).1, ((testHex_iff 3 s).1 ht).2⟩
    simp [h6, h3]
  | undefined => rfl
  | arr _ => rfl
  | obj _ => rfl

theorem V1.parseColorNoHash_eq_server (v : QueryValue) :
    V1.parseColorNoHash v = Server.parseColorNoHash v := rfl

/-! ## The claims on `parseSize` and `parseColorNoHash` -/

/-- C1: for every string `W sep H` where `W` and `H` are each 2 to 4 decimal
digits and `sep` is `x` or `X`, `parseSize` of both source files returns
`max(128, min(2048, min(W, H)))`, with `W` and `H` read as decimal numbers. -/
theorem parseSize_valid (w h : List Char) (sep : Char)
    (hw : Claims.IsDimension w) (hh : Claims.IsDimension h) (hsep : sep = 'x' ∨ sep = 'X') :
    V1.parseSize (.str ⟨w ++ sep :: h⟩) =
        max 128 (min 2048 (min (Claims.decimalValue w : Int) (Claims.decimalValue h))) ∧
      Server.parseSize (.str ⟨w ++ sep :: h⟩) =
        max 128 (min 2048 (min (Claims.decimalValue w : Int) (Claims.decimalValue h))) := by
  rw [V1.parseSize_eq_server]
  exact ⟨server_parseSize_form w h sep hw hh hsep, server_parseSize_form w h sep hw hh hsep⟩

/-- Witness of C1 at `300X9999`: both dimensions are well formed and the
result is `max(128, min(2048, min(300, 9999)))`, which is 300. -/
theorem parseSize_valid_witness :
    Claims.IsDimension "300".data ∧ Claims.IsDimension "9999".data ∧
      (V1.parseSize (.str ⟨"300".data ++ 'X' :: "9999".data⟩) =
        max 128 (min 2048 (min (Claims.decimalValue "300".data : Int)
          (Claims.decimalValue "9999".data))) ∧
      Server.parseSize (.str ⟨"300".data ++ 'X' :: "9999".data⟩) =
        max 128 (min 2048 (min (Claims.decimalValue "300".data : Int)
          (Claims.decimalValue "9999".data)))) ∧
      V1.parseSize (.str "300X9999") = 300 ∧ Server.parseSize (.str "300X9999") = 300 :=
  ⟨by decide, by decide,
    parseSize_valid "300".data "9999".data 'X' (by decide) (by decide) (Or.inr rfl),
    by decide, by decide⟩

/-- C2: for every input that is not a string, and for every string that is
not, in full, 2 to 4 digits, `x` or `X`, 2 to 4 digits, `parseSize` of both
source files returns 500. -/
theorem parseSize_malformed (v : QueryValue)
    (h : ∀ s, v = .str s → ¬ Claims.IsSizeString s) :
    V1.parseSize v = 500 ∧ Server.parseSize v = 500 := by
  rw [V1.parseSize_eq_server]
  exact ⟨server_parseSize_malformed v h, server_parseSize_malformed v h⟩

/-- Witness of C2: a trailing newline, a one-digit and a five-digit dimension,
a missing dimension, a leading blank and a missing value all give 500. -/
theorem parseSize_malformed_witness :
    (¬ Claims.IsSizeString "300x300\n" ∧
      V1.parseSize (.str "300x300\n") = 500 ∧ Server.parseSize (.str "300x300\n") = 500) ∧
    (¬ Claims.IsSizeString "5x500" ∧
      V1.parseSize (.str "5x500") = 500 ∧ Server.parseSize (.str "5x500") = 500) ∧
    (¬ Claims.IsSizeString "12345x500" ∧
      V1.parseSize (.str "12345x500") = 500 ∧ Server.parseSize (.str "12345x500") = 500) ∧
    (¬ Claims.IsSizeString "x500" ∧
      V1.parseSize (.str "x500") = 500 ∧ Server.parseSize (.str "x500") = 500) ∧
    (¬ Claims.IsSizeString " 300x300" ∧
      V1.parseSize (.str " 300x300") = 500 ∧ Server.parseSize (.str " 300x300") = 500) ∧
    (V1.parseSize .undefined = 500 ∧ Server.parseSize .undefined = 500) :=
  ⟨⟨by decide, parseSize_malformed (.str "300x300\n") (by intro s hs; cases hs; decide)⟩,
    ⟨by decide, parseSize_malformed (.str "5x500") (by intro s hs; cases hs; decide)⟩,
    ⟨by decide, parseSize_malformed (.str "12345x500") (by intro s hs; cases hs; decide)⟩,
    ⟨by decide, parseSize_malformed (.str "x500") (by intro s hs; cases hs; decide)⟩,
    ⟨by decide, parseSize_malformed (.str " 300x300") (by intro s hs; cases hs; decide)⟩,
    parseSize_malformed .undefined (by intro s hs; cases hs)⟩

/-- C3: for every string of exactly 3 or exactly 6 hexadecimal digits,
`parseColorNoHash` of both source files returns `#` followed by the input as it
is; for every other input (not a string, another length, a character that is
not a hexadecimal digit, a leading `#`) it returns `#000000`. -/
theorem parseColorNoHash_hex_or_black (v : QueryValue) :
    (∀ s, v = .str s → Claims.IsHexColor s →
        V1.parseColorNoHash v = "#" ++ s ∧ Server.parseColorNoHash v = "#" ++ s) ∧
      ((∀ s, v = .str s → ¬ Claims.IsHexColor s) →
        V1.parseColorNoHash v = "#000000" ∧ Server.parseColorNoHash v = "#000000") := by
  constructor
  · rintro s rfl hs
    rw [V1.parseColorNoHash_eq_server]
    exact ⟨server_parseColorNoHash_hex s hs, server_parseColorNoHash_hex s hs⟩
  · intro h
    rw [V1.parseColorNoHash_eq_server]
    exact ⟨server_parseColorNoHash_other v h, server_parseColorNoHash_other v h⟩

/-- Witness of C3: `0fF` is kept with its letter case, `#0fF` is not. -/
theorem parseColorNoHash_hex_or_black_witness :
    Claims.IsHexColor "0fF" ∧ V1.parseColorNoHash (.str "0fF") = "#" ++ "0fF" ∧
      ¬ Claims.IsHexColor "#0fF" ∧ Server.parseColorNoHash (.str "#0fF") = "#000000" :=
  ⟨by decide, ((parseColorNoHash_hex_or_black (.str "0fF")).1 "0fF" rfl (by decide)).1,
    by decide, ((parseColorNoHash_hex_or_black (.str "#0fF")).2 (by
      intro s hs
      cases hs
      decide)).2⟩

/-! ## `parseStyle` and the margin -/

theorem takeWhile_digit_nil (rest : List Char)
    (h : ∀ c, rest.head? = some c → c.isDigit = false) :
    rest.takeWhile Char.isDigit = [] := by
  cases rest with
  | nil => rfl
  | cons c t => rw [List.takeWhile_cons_of_neg (by simp [h c rfl])]

/-- The shape on which `parseInt` gives `NaN`: white space, an optional sign,
and a rest that does not go on with a digit (nor, without a sign, with white
space or a sign). -/
theorem parseInt_nan (ws sign rest : List Char)
    (hws : ∀ c ∈ ws, isStrWhiteSpaceChar c = true)
    (hsign : sign = [] ∨ sign = ['+'] ∨ sign = ['-'])
    (hrest : ∀ c, rest.head? = some c → c.isDigit = false ∧
      (sign = [] → isStrWhiteSpaceChar c = false ∧ c ≠ '+' ∧ c ≠ '-')) :
    parseInt ⟨ws ++ (sign ++ rest)⟩ = .nan := by
  have htake := takeWhile_digit_nil rest (fun c hc => (hrest c hc).1)
  unfold parseInt
  rcases hsign with rfl | rfl | rfl
  · have e : (ws ++ ([] ++ rest)).dropWhile isStrWhiteSpaceChar = rest := by
      rw [List.dropWhile_append_of_pos hws, List.nil_append]
      cases rest with
      | nil => rfl
      | cons c t => rw [List.dropWhile_cons_of_neg (by simp [((hrest c rfl).2 rfl).1])]
    have hb : stripSign rest = rest :=
      stripSign_of_head rest (fun c hc => ((hrest c hc).2 rfl).2)
    simp only [e, hb, htake]
    rfl
  · have e : (ws ++ (['+'] ++ rest)).dropWhile isStrWhiteSpaceChar = '+' :: rest := by
      rw [List.dropWhile_append_of_pos hws]
      simp only [List.singleton_append]
      rw [List.dropWhile_cons_of_neg (by decide)]
    have hb : stripSign ('+' :: rest) = rest := rfl
    simp only [e, hb, htake]
    rfl
  · have e : (ws ++ (['-'] ++ rest)).dropWhile isStrWhiteSpaceChar = '-' :: rest := by
      rw [List.dropWhile_append_of_pos hws]
      simp only [List.singleton_append]
      rw [List.dropWhile_cons_of_neg (by decide)]
    have hb : stripSign ('-' :: rest) = rest := rfl
    simp only [e, hb, htake]
    rfl

theorem stripSign_cases (t : List Char) :
    (∃ t1, t = '-' :: t1 ∧ stripSign t = t1) ∨ (∃ t1, t = '+' :: t1 ∧ stripSign t = t1) ∨
      (stripSign t = t ∧ (t.head? == some '-') = false) := by
  unfold stripSign
  split
  · exact Or.inl ⟨_, rfl, rfl⟩
  · exact Or.inr (Or.inl ⟨_, rfl, rfl⟩)
  · rename_i h1 h2
    refine Or.inr (Or.inr ⟨rfl, ?_⟩)
    cases t with
    | nil => rfl
    | cons c t1 =>
      have : c ≠ '-' := fun e => h1 t1 (by rw [e])
      simp [this]

theorem head_dropWhile_digit (l : List Char) :
    ∀ c, (l.dropWhile Char.isDigit).head? = some c → c.isDigit = false := by
  intro c hc
  induction l with
  | nil => simp at hc
  | cons a t ih =>
    by_cases ha : a.isDigit = true
    · rw [List.dropWhile_cons_of_pos ha] at hc
      exact ih hc
    · rw [List.dropWhile_cons_of_neg ha] at hc
      simp only [List.head?_cons, Option.some.injEq] at hc
      subst hc
      simpa using ha

/-- A finite result of the rounding below 2^52 is the number itself. -/
theorem roundToDouble_exact (k r : Nat) (hr : roundToDouble k = some r) (hlt : r < 2 ^ 52) :
    k = r := by
  by_cases hk : k < 2 ^ 53
  · rw [roundToDouble_small k hk] at hr
    exact Option.some.inj hr
  · have := roundToDouble_large k r (by omega) hr
    omega

/-- A positive result of `parseInt` below 2^52 is read from a leading unsigned
or `+`-signed digit run with that value. -/
theorem leads_of_parseInt (s : String) (j : Nat) (hj : 0 < j) (hj2 : j < 2 ^ 52)
    (h : parseInt s = .fin j) : Claims.LeadsWithInteger s j := by
  unfold parseInt at h
  have hsplit := List.takeWhile_append_dropWhile isStrWhiteSpaceChar s.data
  have hws : ∀ c ∈ s.data.takeWhile isStrWhiteSpaceChar, isStrWhiteSpaceChar c = true :=
    fun c hc => List.mem_takeWhile_imp hc
  generalize s.data.takeWhile isStrWhiteSpaceChar = ws at hsplit hws
  generalize s.data.dropWhile isStrWhiteSpaceChar = t at hsplit h
  -- the value read from a body of digits
  have key : ∀ (body : List Char) (neg : Bool),
      (if (body.takeWhile Char.isDigit).isEmpty = true then Number.nan
        else Number.ofSignMagnitude neg (mathInt (body.takeWhile Char.isDigit))) = .fin j →
      neg = false ∧ body.takeWhile Char.isDigit ≠ [] ∧
        Claims.decimalValue (body.takeWhile Char.isDigit) = j := by
    intro body neg hb
    split_ifs at hb with he
    have hne : body.takeWhile Char.isDigit ≠ [] := by
      intro e; rw [e] at he; exact he rfl
    unfold Number.ofSignMagnitude at hb
    cases hr : roundToDouble (mathInt (body.takeWhile Char.isDigit)) with
    | none => rw [hr] at hb; cases neg <;> simp at hb
    | some r =>
      rw [hr] at hb
      cases neg with
      | true =>
        simp only [if_true, Number.fin.injEq] at hb
        omega
      | false =>
        simp only [Bool.false_eq_true, if_false, Number.fin.injEq] at hb
        have hrj : r = j := by exact_mod_cast hb
        subst hrj
        refine ⟨rfl, hne, ?_⟩
        rw [← mathInt_eq_decimalValue]
        exact roundToDouble_exact _ _ hr hj2
  have hdig : ∀ body : List Char, ∀ c ∈ body.takeWhile Char.isDigit, c.isDigit = true :=
    fun body c hc => List.mem_takeWhile_imp hc
  dsimp only at h
  rcases stripSign_cases t with ⟨t1, rfl, hb⟩ | ⟨t1, rfl, hb⟩ | ⟨hb, -⟩
  · -- a leading minus sign
    rw [hb] at h
    have := key t1 _ h
    simp at this
  · rw [hb] at h
    obtain ⟨-, hne, hval⟩ := key t1 _ h
    refine ⟨ws, ['+'], t1.takeWhile Char.isDigit, t1.dropWhile Char.isDigit, ?_, hws,
      Or.inr rfl, hne, hdig t1, head_dropWhile_digit t1, hval⟩
    rw [List.takeWhile_append_dropWhile, ← hsplit]
    rfl
  · rw [hb] at h
    obtain ⟨-, hne, hval⟩ := key t _ h
    refine ⟨ws, [], t.takeWhile Char.isDigit, t.dropWhile Char.isDigit, ?_, hws,
      Or.inl rfl, hne, hdig t, head_dropWhile_digit t, hval⟩
    rw [List.takeWhile_append_dropWhile, ← hsplit]
    rfl

/-- A string that leads with an integer below 2^53 is parsed to it. -/
theorem parseInt_of_leads (s : String) (k : Nat) (hk : k < 2 ^ 53)
    (h : Claims.LeadsWithInteger s k) : parseInt s = .fin k := by
  obtain ⟨ws, sign, ds, rest, hs, hws, hsign, hne, hds, hrest, hval⟩ := h
  have hp := parseInt_number ws sign ds rest hws
    (by rcases hsign with e | e <;> simp [e]) hne hds hrest
  have hsd : s = ⟨ws ++ (sign ++ (ds ++ rest))⟩ := by
    cases s
    simp only at hs
    rw [hs]
  have hneg : decide (sign = ['-']) = false := by
    rcases hsign with e | e <;> simp [e]
  rw [hsd, hp, hneg, mathInt_eq_decimalValue, hval]
  unfold Number.ofSignMagnitude
  rw [roundToDouble_small k hk]
  simp

theorem server_parseStyle_range (v : QueryValue) :
    Server.parseStyle v = 1 ∨ Server.parseStyle v = 2 ∨ Server.parseStyle v = 3 := by
  unfold Server.parseStyle
  split
  · split_ifs with h
    · exact h
    · exact Or.inl rfl
  · exact Or.inl rfl

theorem server_parseStyle_iff (v : QueryValue) (k : Nat) (hk : k = 2 ∨ k = 3) :
    Server.parseStyle v = k ↔ Claims.LeadsWithInteger v.toStr k := by
  have hk1 : (k : Int) ≠ 1 := by rcases hk with rfl | rfl <;> decide
  constructor
  · intro h
    unfold Server.parseStyle at h
    split at h
    · rename_i s hs
      split_ifs at h with h1
      · subst h
        exact leads_of_parseInt _ k (by omega) (by rcases hk with rfl | rfl <;> norm_num) hs
      · exact absurd h.symm hk1
    · exact absurd h.symm hk1
  · intro h
    have hp := parseInt_of_leads _ k (by rcases hk with rfl | rfl <;> norm_num) h
    unfold Server.parseStyle
    rw [hp]
    simp only
    rw [if_pos]
    rcases hk with rfl | rfl
    · right; left; rfl
    · right; right; rfl

theorem V1.parseStyle_eq_server (v : QueryValue) : V1.parseStyle v = Server.parseStyle v := rfl

/-- C4, as the claim states it, fails: `2abc` is not a run of decimal digits,
yet `parseStyle` of both source files returns 2 for it, not 1. -/
theorem parseStyle_prefix_counterexample :
    ¬ (∀ c ∈ "2abc".data, c.isDigit = true) ∧
      V1.parseStyle (.str "2abc") = 2 ∧ Server.parseStyle (.str "2abc") = 2 ∧
      V1.parseStyle (.str "2abc") ≠ 1 := by
  decide

/-- C4, amended: `parseStyle` of both source files returns 1, 2 or 3; it
returns `k` = 2 or 3 exactly when the string form of the input begins, after
optional white space and an optional `+`, with a run of decimal digits that
denotes `k`, whatever follows the run; in every other case it returns 1. -/
theorem parseStyle_leading_integer (v : QueryValue) :
    (V1.parseStyle v = 1 ∨ V1.parseStyle v = 2 ∨ V1.parseStyle v = 3) ∧
      (Server.parseStyle v = 1 ∨ Server.parseStyle v = 2 ∨ Server.parseStyle v = 3) ∧
      (∀ k : Nat, k = 2 ∨ k = 3 →
        ((V1.parseStyle v = k ↔ Claims.LeadsWithInteger v.toStr k) ∧
          (Server.parseStyle v = k ↔ Claims.LeadsWithInteger v.toStr k))) ∧
      ((¬ Claims.LeadsWithInteger v.toStr 2 ∧ ¬ Claims.LeadsWithInteger v.toStr 3) →
        V1.parseStyle v = 1 ∧ Server.parseStyle v = 1) := by
  rw [V1.parseStyle_eq_server]
  refine ⟨server_parseStyle_range v, server_parseStyle_range v,
    fun k hk => ⟨server_parseStyle_iff v k hk, server_parseStyle_iff v k hk⟩, ?_⟩
  rintro ⟨h2, h3⟩
  have h2n : Server.parseStyle v ≠ 2 := fun e =>
    h2 ((server_parseStyle_iff v 2 (Or.inl rfl)).1 (by exact_mod_cast e))
  have h3n : Server.parseStyle v ≠ 3 := fun e =>
    h3 ((server_parseStyle_iff v 3 (Or.inr rfl)).1 (by exact_mod_cast e))
  rcases server_parseStyle_range v with h | h | h
  · exact ⟨h, h⟩
  · exact absurd h h2n
  · exact absurd h h3n

/-- Witness of the amended C4 at ` +3px`: the string leads with the integer 3,
and both parsers return 3. -/
theorem parseStyle_leading_integer_witness :
    Claims.LeadsWithInteger (QueryValue.str " +3px").toStr 3 ∧
      V1.parseStyle (.str " +3px") = 3 ∧ Server.parseStyle (.str " +3px") = 3 := by
  have hl : Claims.LeadsWithInteger (QueryValue.str " +3px").toStr 3 :=
    ⟨[' '], ['+'], ['3'], ['p', 'x'], rfl, by decide, Or.inr rfl, by decide, by decide,
      by decide, by decide⟩
  have h := (parseStyle_leading_integer (.str " +3px")).2.2.1 3 (Or.inr rfl)
  exact ⟨hl, by exact_mod_cast h.1.2 hl, by exact_mod_cast h.2.2 hl⟩

/-! ## The margin -/

/-- The margin of a decimal integer string whose value rounds to a finite
double is the value clamped to `0..cap`. -/
theorem margin_of_integer (cap : Int) (hcap0 : 0 ≤ cap) (hcap : cap ≤ 2 ^ 52)
    (neg : Bool) (ds : List Char) (hne : ds ≠ []) (hds : ∀ c ∈ ds, c.isDigit = true)
    (hfin : Claims.decimalValue ds < 2 ^ 1024 - 2 ^ 970) :
    (match parseInt ⟨(if neg then ['-'] else []) ++ ds⟩ with
      | .fin k => max 0 (min cap k)
      | _ => 2) =
      max 0 (min cap (if neg then -(Claims.decimalValue ds : Int) else Claims.decimalValue ds)) := by
  have hp := parseInt_number [] (if neg then ['-'] else []) ds [] (by simp)
    (by cases neg <;> simp) hne hds (by simp)
  simp only [List.nil_append, List.append_nil] at hp
  rw [hp, mathInt_eq_decimalValue]
  have hsign : decide ((if neg = true then ['-'] else []) = ['-']) = neg := by
    cases neg <;> simp
  rw [hsign]
  obtain ⟨r, hr⟩ := roundToDouble_finite _ hfin
  unfold Number.ofSignMagnitude
  rw [hr]
  simp only
  by_cases hk : Claims.decimalValue ds < 2 ^ 53
  · rw [roundToDouble_small _ hk] at hr
    rw [← Option.some.inj hr]
  · have h1 := roundToDouble_large _ r (by omega) hr
    have h2 : (2 : Int) ^ 52 ≤ (r : Int) := by exact_mod_cast h1
    have h3 : (2 : Int) ^ 53 ≤ (Claims.decimalValue ds : Int) := by
      have : 2 ^ 53 ≤ Claims.decimalValue ds := by omega
      exact_mod_cast this
    cases neg
    · simp only [Bool.false_eq_true, if_false]
      rw [min_eq_left (by omega : cap ≤ (r : Int)),
        min_eq_left (by omega : cap ≤ (Claims.decimalValue ds : Int))]
    · simp only [if_true]
      rw [min_eq_right (by omega : -(r : Int) ≤ cap),
        min_eq_right (by omega : -(Claims.decimalValue ds : Int) ≤ cap),
        max_eq_left (by omega), max_eq_left (by omega)]

/-- The margin of a decimal integer string whose value overflows the doubles is
the default 2. -/
theorem margin_of_overflow (cap : Int) (neg : Bool) (ds : List Char) (hne : ds ≠ [])
    (hds : ∀ c ∈ ds, c.isDigit = true) (hinf : 2 ^ 1024 - 2 ^ 970 ≤ Claims.decimalValue ds) :
    (match parseInt ⟨(if neg then ['-'] else []) ++ ds⟩ with
      | .fin k => max 0 (min cap k)
      | _ => 2) = 2 := by
  have hp := parseInt_number [] (if neg then ['-'] else []) ds [] (by simp)
    (by cases neg <;> simp) hne hds (by simp)
  simp only [List.nil_append, List.append_nil] at hp
  rw [hp, mathInt_eq_decimalValue]
  unfold Number.ofSignMagnitude
  rw [roundToDouble_overflow _ hinf]
  simp only
  split_ifs <;> rfl

theorem margin_range (cap : Int) (hcap : 2 ≤ cap) (n : Number) :
    0 ≤ (match n with
      | .fin k => max 0 (min cap k)
      | _ => 2) ∧
    (match n with
      | .fin k => max 0 (min cap k)
      | _ => 2) ≤ cap := by
  cases n with
  | fin k =>
    simp only
    exact ⟨le_max_left _ _, max_le (by omega) (min_le_left _ _)⟩
  | nan => simp only; omega
  | posInf => simp only; omega
  | negInf => simp only; omega

/-- C5, as the claim states it, fails: the digit 1 followed by 309 zeros is a
decimal integer string, its value clamps to 10 (resp. 12), yet both handlers
normalise the margin to the default 2, because `parseInt` overflows to
`Infinity`, which `Number.isFinite` rejects. -/
theorem margin_overflow_counterexample :
    (∀ c ∈ '1' :: List.replicate 309 '0', c.isDigit = true) ∧
      V1.m (.str ⟨'1' :: List.replicate 309 '0'⟩) = 2 ∧
      Server.m (.str ⟨'1' :: List.replicate 309 '0'⟩) = 2 ∧
      max 0 (min 10 (Claims.decimalValue ('1' :: List.replicate 309 '0') : Int)) = 10 ∧
      max 0 (min 12 (Claims.decimalValue ('1' :: List.replicate 309 '0') : Int)) = 12 := by
  decide

/-- C5, amended. For a decimal integer string (an optional `-` and a non-empty
run of digits) of value `k`: when `k` rounds to a finite double, that is
`|k| < 2^1024 - 2^970`, the margin is `clamp(k, 0, 10)` in `v1.js` and
`clamp(k, 0, 12)` in `server.js`; beyond that it is 2. It is 2 as well for a
missing value and for a string that, after white space and an optional sign,
does not go on with a digit. In every case it lies in `[0, 10]` resp.
`[0, 12]`. -/
theorem margin_clamped :
    (∀ (neg : Bool) (ds : List Char), ds ≠ [] → (∀ c ∈ ds, c.isDigit = true) →
      Claims.decimalValue ds < 2 ^ 1024 - 2 ^ 970 →
      V1.m (.str ⟨(if neg then ['-'] else []) ++ ds⟩) =
          max 0 (min 10 (if neg then -(Claims.decimalValue ds : Int)
            else Claims.decimalValue ds)) ∧
        Server.m (.str ⟨(if neg then ['-'] else []) ++ ds⟩) =
          max 0 (min 12 (if neg then -(Claims.decimalValue ds : Int)
            else Claims.decimalValue ds))) ∧
    (∀ (neg : Bool) (ds : List Char), ds ≠ [] → (∀ c ∈ ds, c.isDigit = true) →
      2 ^ 1024 - 2 ^ 970 ≤ Claims.decimalValue ds →
      V1.m (.str ⟨(if neg then ['-'] else []) ++ ds⟩) = 2 ∧
        Server.m (.str ⟨(if neg then ['-'] else []) ++ ds⟩) = 2) ∧
    (V1.m .undefined = 2 ∧ Server.m .undefined = 2) ∧
    (∀ ws sign rest : List Char, (∀ c ∈ ws, isStrWhiteSpaceChar c = true) →
      (sign = [] ∨ sign = ['+'] ∨ sign = ['-']) →
      (∀ c, rest.head? = some c → c.isDigit = false ∧
        (sign = [] → isStrWhiteSpaceChar c = false ∧ c ≠ '+' ∧ c ≠ '-')) →
      V1.m (.str ⟨ws ++ (sign ++ rest)⟩) = 2 ∧ Server.m (.str ⟨ws ++ (sign ++ rest)⟩) = 2) ∧
    (∀ v : QueryValue, 0 ≤ V1.m v ∧ V1.m v ≤ 10 ∧ 0 ≤ Server.m v ∧ Server.m v ≤ 12) := by
  refine ⟨?_, ?_, ⟨?_, ?_⟩, ?_, ?_⟩
  · intro neg ds hne hds hfin
    exact ⟨margin_of_integer 10 (by norm_num) (by norm_num) neg ds hne hds hfin,
      margin_of_integer 12 (by norm_num) (by norm_num) neg ds hne hds hfin⟩
  · intro neg ds hne hds hinf
    exact ⟨margin_of_overflow 10 neg ds hne hds hinf, margin_of_overflow 12 neg ds hne hds hinf⟩
  · decide
  · decide
  · intro ws sign rest hws hsign hrest
    have hp := parseInt_nan ws sign rest hws hsign hrest
    constructor
    · unfold V1.m
      simp only [QueryValue.toStr, hp]
    · unfold Server.m
      simp only [QueryValue.toStr, hp]
  · intro v
    have h1 := margin_range 10 (by norm_num) (parseInt v.toStr)
    have h2 := margin_range 12 (by norm_num) (parseInt v.toStr)
    exact ⟨h1.1, h1.2, h2.1, h2.2⟩

/-- Witness of the amended C5: `-7` clamps to 0 and `11` clamps to 10 resp. it
stays 11, each being a digit run below the overflow threshold; `abc` is not
numeric and gives 2. -/
theorem margin_clamped_witness :
    (V1.m (.str "-7") = 0 ∧ Server.m (.str "-7") = 0) ∧
      (V1.m (.str "11") = 10 ∧ Server.m (.str "11") = 11) ∧
      (V1.m (.str "abc") = 2 ∧ Server.m (.str "abc") = 2) := by
  have h1 := margin_clamped.1 true ['7'] (by decide) (by decide) (by decide)
  have h2 := margin_clamped.1 false ['1', '1'] (by decide) (by decide) (by decide)
  have h3 := margin_clamped.2.2.2.1 [] [] ['a', 'b', 'c'] (by decide) (Or.inl rfl) (by decide)
  exact ⟨h1, h2, h3⟩

/-! ## The error-correction level -/

theorem toUpperCaseChar_ne_nil (c : Char) : toUpperCaseChar c ≠ [] := by
  unfold toUpperCaseChar
  split_ifs
  · simp
  · split
    · rename_i u hu
      intro e
      subst e
      revert hu
      generalize c.toNat = n
      unfold upperSpecial
      simp only [List.lookup]
      intro hu
      repeat' split at hu
      all_goals simp at hu
    · simp

/-- A character whose upper case is exactly one of `L`, `M`, `Q`, `H` is that
letter or its small form. -/
theorem toUpperCaseChar_level (c X : Char) (hX : X ∈ ['L', 'M', 'Q', 'H'])
    (h : toUpperCaseChar c = [X]) : c ∈ ['L', 'M', 'Q', 'H', 'l', 'm', 'q', 'h'] := by
  unfold toUpperCaseChar at h
  split_ifs at h with h1
  · rw [char_le_iff, char_le_iff] at h1
    have := char_mem_range c _ _ h1.1 h1.2
    simp [List.range'] at this
    rcases this with e | e | e | e | e | e | e | e | e | e | e | e | e | e | e | e | e | e | e
      | e | e | e | e | e | e | e <;> subst e <;> simp at h <;> subst h <;> revert hX <;> decide
  · split at h
    · rename_i u hu
      exfalso
      subst h
      revert hu
      generalize c.toNat = n
      unfold upperSpecial
      simp only [List.lookup]
      intro hu
      repeat' split at hu
      all_goals simp at hu
      all_goals (subst hu; revert hX; decide)
    · simp only [List.cons.injEq, and_true] at h
      subst h
      fin_cases hX <;> decide

/-- A string whose upper case is one of `L`, `M`, `Q`, `H` is one of the eight
spellings. -/
theorem spelling_of_toUpperCase (t : String)
    (h : toUpperCase t ∈ ["L", "M", "Q", "H"]) : t ∈ Claims.levelSpellings := by
  have hX : ∃ X, X ∈ ['L', 'M', 'Q', 'H'] ∧ t.data.flatMap toUpperCaseChar = [X] := by
    unfold toUpperCase at h
    simp only [List.mem_cons, List.mem_singleton, List.not_mem_nil, or_false] at h
    rcases h with e | e | e | e
    · exact ⟨'L', by decide, congrArg String.data e⟩
    · exact ⟨'M', by decide, congrArg String.data e⟩
    · exact ⟨'Q', by decide, congrArg String.data e⟩
    · exact ⟨'H', by decide, congrArg String.data e⟩
  obtain ⟨X, hXm, hf⟩ := hX
  obtain ⟨l⟩ := t
  simp only at hf
  cases l with
  | nil => simp at hf
  | cons c rest =>
    rw [List.flatMap_cons] at hf
    have hne := toUpperCaseChar_ne_nil c
    cases hu : toUpperCaseChar c with
    | nil => exact absurd hu hne
    | cons a u =>
      rw [hu] at hf
      simp only [List.cons_append, List.cons.injEq, List.append_eq_nil] at hf
      obtain ⟨rfl, rfl, hrest⟩ := hf
      have hrest0 : rest = [] := by
        cases rest with
        | nil => rfl
        | cons d r =>
          rw [List.flatMap_cons] at hrest
          simp only [List.append_eq_nil] at hrest
          exact absurd hrest.1 (toUpperCaseChar_ne_nil d)
      subst hrest0
      have hc := toUpperCaseChar_level c a hXm hu
      fin_cases hc <;> decide

theorem toUpperCase_of_spelling (t : String) (h : t ∈ Claims.levelSpellings) :
    toUpperCase t ∈ ["L", "M", "Q", "H"] := by
  fin_cases h <;> decide

theorem falsyToString_of_spelling (v : QueryValue) (h : v.toStr ∈ Claims.levelSpellings) :
    falsyToString v "M" = v.toStr := by
  cases v with
  | undefined => exact absurd h (by decide)
  | str s =>
    unfold falsyToString
    simp only [QueryValue.toStr]
    rw [if_neg]
    rintro rfl
    exact absurd h (by decide)
  | arr _ => rfl
  | obj _ => rfl

theorem falsyToString_cases (v : QueryValue) :
    falsyToString v "M" = "M" ∨ falsyToString v "M" = v.toStr := by
  cases v with
  | undefined => exact Or.inl rfl
  | str s =>
    unfold falsyToString
    simp only [QueryValue.toStr]
    split_ifs
    · exact Or.inl rfl
    · exact Or.inr rfl
  | arr _ => exact Or.inr rfl
  | obj _ => exact Or.inr rfl

theorem server_ecLevel_eq (v : QueryValue) :
    Server.ecLevel v =
      if toUpperCase (falsyToString v "M") ∈ ["L", "M", "Q", "H"]
      then toUpperCase (falsyToString v "M") else "M" := by
  unfold Server.ecLevel
  simp only [List.contains, List.elem_eq_mem, decide_eq_true_eq]

theorem V1.errorCorrectionLevel_eq_server (v : QueryValue) :
    V1.errorCorrectionLevel v = Server.ecLevel v := rfl

theorem server_ecLevel_mem (v : QueryValue) : Server.ecLevel v ∈ ["L", "M", "Q", "H"] := by
  rw [server_ecLevel_eq]
  split_ifs with h
  · exact h
  · decide

theorem server_ecLevel_spelling (v : QueryValue) (h : v.toStr ∈ Claims.levelSpellings) :
    Server.ecLevel v = toUpperCase v.toStr := by
  rw [server_ecLevel_eq, falsyToString_of_spelling v h, if_pos (toUpperCase_of_spelling _ h)]

theorem server_ecLevel_other (v : QueryValue) (h : v.toStr ∉ Claims.levelSpellings) :
    Server.ecLevel v = "M" := by
  rw [server_ecLevel_eq]
  rcases falsyToString_cases v with e | e
  · rw [e]
    decide
  · rw [e, if_neg (fun hm => h (spelling_of_toUpperCase _ hm))]

/-- C6: for every `ecl` input the normalised level of both handlers is one of
`L`, `M`, `Q`, `H`. When the input (a string, or the string form of an array)
is one of these letters in either letter case, the level is the upper-cased
input, which is that capital letter; for every other input, a missing or an
empty one included, it is `M`. -/
theorem ecl_normalised (v : QueryValue) :
    (V1.errorCorrectionLevel v ∈ ["L", "M", "Q", "H"] ∧
      Server.ecLevel v ∈ ["L", "M", "Q", "H"]) ∧
    (v.toStr ∈ Claims.levelSpellings →
      V1.errorCorrectionLevel v = toUpperCase v.toStr ∧
        Server.ecLevel v = toUpperCase v.toStr ∧
        toUpperCase v.toStr ∈ ["L", "M", "Q", "H"]) ∧
    (v.toStr ∉ Claims.levelSpellings →
      V1.errorCorrectionLevel v = "M" ∧ Server.ecLevel v = "M") ∧
    (V1.errorCorrectionLevel .undefined = "M" ∧ Server.ecLevel .undefined = "M" ∧
      V1.errorCorrectionLevel (.str "") = "M" ∧ Server.ecLevel (.str "") = "M") := by
  rw [V1.errorCorrectionLevel_eq_server]
  refine ⟨⟨server_ecLevel_mem v, server_ecLevel_mem v⟩, ?_, ?_, ?_⟩
  · intro h
    exact ⟨server_ecLevel_spelling v h, server_ecLevel_spelling v h, toUpperCase_of_spelling _ h⟩
  · intro h
    exact ⟨server_ecLevel_other v h, server_ecLevel_other v h⟩
  · decide

/-- Witness of C6: `q` is a spelling of a level and is normalised to `Q`;
`quartile` is not and is normalised to `M`. -/
theorem ecl_normalised_witness :
    (QueryValue.str "q").toStr ∈ Claims.levelSpellings ∧
      V1.errorCorrectionLevel (.str "q") = "Q" ∧ Server.ecLevel (.str "q") = "Q" ∧
      (QueryValue.str "quartile").toStr ∉ Claims.levelSpellings ∧
      V1.errorCorrectionLevel (.str "quartile") = "M" ∧
      Server.ecLevel (.str "quartile") = "M" := by
  have h1 := (ecl_normalised (.str "q")).2.1 (by decide)
  have h2 := (ecl_normalised (.str "quartile")).2.2.1 (by decide)
  exact ⟨by decide, h1.1, h1.2.1, by decide, h2.1, h2.2⟩

/-! ## The style resolver and the validation of `data` -/

/-- The only call the handler of `v1.js` makes carries the colour pair of the
style resolver. -/
theorem v1_handler_calls (toBuffer : String → V1.Options → Except String Buffer)
    (req : Request) (text : String) (options : V1.Options)
    (h : V1.Call.toBuffer text options ∈ (V1.handler toBuffer req).calls) :
    options.color =
      V1.color (V1.parseStyle req.query.style) (V1.parseColorNoHash req.query.color) := by
  unfold V1.handler at h
  by_cases h1 : req.method = "OPTIONS"
  · simp [h1] at h
  · by_cases h2 : V1.text req.query.data = ""
    · simp [h1, h2] at h
    · simp only [if_neg h1, if_neg h2] at h
      split at h
      · simp only [List.mem_singleton, V1.Call.toBuffer.injEq] at h
        rw [h.2]
      · simp only [List.mem_singleton, V1.Call.toBuffer.injEq] at h
        rw [h.2]

/-- C7: in `v1.js` the colour pair handed to the encoder is
`(dark, light) = (c, #ffffff)` for style 1, `(#ffffff, c)` for style 2 and
`(c, #00000000)` for style 3, where `c` is the resolved colour; `style=2` with
`color=ff0000` gives white modules on `#ff0000`; and every call of the encoder
carries the pair computed from the normalised style and the resolved colour. -/
theorem style_resolver (c : String) :
    V1.color 1 c = { dark := c, light := "#ffffff" } ∧
      V1.color 2 c = { dark := "#ffffff", light := c } ∧
      V1.color 3 c = { dark := c, light := "#00000000" } ∧
      V1.color (V1.parseStyle (.str "2")) (V1.parseColorNoHash (.str "ff0000")) =
        { dark := "#ffffff", light := "#ff0000" } ∧
      ∀ (toBuffer : String → V1.Options → Except String Buffer) (req : Request)
        (text : String) (options : V1.Options),
        V1.Call.toBuffer text options ∈ (V1.handler toBuffer req).calls →
          options.color =
            V1.color (V1.parseStyle req.query.style) (V1.parseColorNoHash req.query.color) := by
  refine ⟨?_, ?_, ?_, ?_, v1_handler_calls⟩
  · simp [V1.color]
  · simp [V1.color]
  · simp [V1.color]
  · decide

/-- Witness of C7: the request `data=HELLO&style=2&color=ff0000` calls the
encoder with white modules on `#ff0000`. -/
theorem style_resolver_witness :
    V1.Call.toBuffer "HELLO" ⟨"png", 500, 2, "M", ⟨"#ffffff", "#ff0000"⟩⟩ ∈
        (V1.handler (fun _ _ => .ok ⟨[]⟩)
          ⟨"GET", ⟨.undefined, .str "2", .str "ff0000", .str "HELLO", .undefined, .undefined,
            .undefined⟩⟩).calls ∧
      (⟨"png", 500, 2, "M", ⟨"#ffffff", "#ff0000"⟩⟩ : V1.Options).color =
        V1.color (V1.parseStyle (.str "2")) (V1.parseColorNoHash (.str "ff0000")) :=
  ⟨by decide, (style_resolver "").2.2.2.2 (fun _ _ => .ok ⟨[]⟩)
    ⟨"GET", ⟨.undefined, .str "2", .str "ff0000", .str "HELLO", .undefined, .undefined,
      .undefined⟩⟩ "HELLO" _ (by decide)⟩

/-- C8: for every GET request whose `data` is absent or the empty string, both
handlers answer status 400 with the body `Missing parameter: data` and make no
call to the matrix builder or the encoder; for every request whose `data` is a
non-empty string, neither handler answers 400. The handler of `server.js` is
registered for GET only, so its requests are given by their query. -/
theorem missing_data_rejected :
    (∀ (toBuffer : String → V1.Options → Except String Buffer) (req : Request),
      req.method = "GET" → (req.query.data = .undefined ∨ req.query.data = .str "") →
      (V1.handler toBuffer req).response.statusCode = 400 ∧
        (V1.handler toBuffer req).response.body = .text "Missing parameter: data" ∧
        (V1.handler toBuffer req).calls = []) ∧
    (∀ (env : Server.Env) (query : Query),
      (query.data = .undefined ∨ query.data = .str "") →
      (Server.handler env query).response.statusCode = 400 ∧
        (Server.handler env query).response.body = .text "Missing parameter: data" ∧
        (Server.handler env query).calls = []) ∧
    (∀ (toBuffer : String → V1.Options → Except String Buffer) (req : Request) (s : String),
      req.query.data = .str s → s ≠ "" →
      (V1.handler toBuffer req).response.statusCode ≠ 400) ∧
    (∀ (env : Server.Env) (query : Query) (s : String),
      query.data = .str s → s ≠ "" →
      (Server.handler env query).response.statusCode ≠ 400) := by
  refine ⟨?_, ?_, ?_, ?_⟩
  · intro toBuffer req hm hd
    have hmeth : ¬ req.method = "OPTIONS" := by rw [hm]; decide
    have ht : V1.text req.query.data = "" := by
      rcases hd with e | e <;> rw [e] <;> rfl
    unfold V1.handler
    simp only [if_neg hmeth, ht, if_true, and_self]
  · intro env query hd
    have ht : Server.text query.data = "" := by
      rcases hd with e | e <;> rw [e] <;> rfl
    unfold Server.handler
    simp only [ht, if_true, and_self]
  · intro toBuffer req s hd hs
    have ht : V1.text req.query.data = s := by rw [hd]; rfl
    unfold V1.handler
    by_cases hmeth : req.method = "OPTIONS"
    · simp only [if_pos hmeth]
      decide
    · simp only [if_neg hmeth, ht, if_neg hs]
      split <;> simp
  · intro env query s hd hs
    have ht : Server.text query.data = s := by rw [hd]; rfl
    unfold Server.handler
    simp only [ht, if_neg hs]
    split
    · simp
    · split <;> simp

/-- Witness of C8: a GET request without `data` is answered 400 by both
handlers, one with `data=HELLO` is not. -/
theorem missing_data_rejected_witness :
    (V1.handler (fun _ _ => .ok ⟨[]⟩)
        ⟨"GET", ⟨.undefined, .undefined, .undefined, .undefined, .undefined, .undefined,
          .undefined⟩⟩).response.statusCode = 400 ∧
      (Server.handler ⟨fun _ _ _ => .error "overflow", fun _ _ => .ok ⟨[]⟩⟩
        ⟨.undefined, .undefined, .undefined, .str "", .undefined, .undefined,
          .undefined⟩).calls = [] ∧
      (V1.handler (fun _ _ => .ok ⟨[]⟩)
        ⟨"GET", ⟨.undefined, .undefined, .undefined, .str "HELLO", .undefined, .undefined,
          .undefined⟩⟩).response.statusCode ≠ 400 ∧
      (Server.handler ⟨fun _ _ _ => .error "overflow", fun _ _ => .ok ⟨[]⟩⟩
        ⟨.undefined, .undefined, .undefined, .str "HELLO", .undefined, .undefined,
          .undefined⟩).response.statusCode ≠ 400 :=
  ⟨(missing_data_rejected.1 _ _ rfl (Or.inl rfl)).1,
    (missing_data_rejected.2.1 _ _ (Or.inr rfl)).2.2,
    missing_data_rejected.2.2.1 _ _ "HELLO" rfl (by decide),
    missing_data_rejected.2.2.2 _ _ "HELLO" rfl (by decide)⟩

/-! ## The module loop -/

open Server

/-- The loop body appends the operations of its cell and keeps the fill
colour. -/
theorem drawModule_ops (ctx : Ctx) (S : Int) (offset cell : ℚ) (x y : Nat) :
    (drawModule ctx S offset cell x y).ops =
        ctx.ops ++ Claims.cellOps S offset cell ctx.fillStyle x y ∧
      (drawModule ctx S offset cell x y).fillStyle = ctx.fillStyle := by
  unfold Claims.cellOps drawModule roundRect
  split_ifs <;>
    simp [Ctx.fill, Ctx.arc, Ctx.beginPath, Ctx.fillRect, Ctx.closePath, Ctx.arcTo, Ctx.moveTo]

/-- The loop body draws exactly one operation. -/
theorem cellOps_length (S : Int) (offset cell : ℚ) (fillStyle : String) (x y : Nat) :
    (Claims.cellOps S offset cell fillStyle x y).length = 1 := by
  unfold Claims.cellOps drawModule roundRect
  split_ifs <;>
    simp [Ctx.fill, Ctx.arc, Ctx.beginPath, Ctx.fillRect, Ctx.closePath, Ctx.arcTo, Ctx.moveTo]

/-- A loop whose step appends operations that depend on the fill colour only,
and keeps the fill colour, appends the operations of all its rounds. -/
theorem foldl_ops {α : Type} (g : Ctx → α → Ctx) (out : String → α → List DrawOp)
    (hg : ∀ c a, (g c a).ops = c.ops ++ out c.fillStyle a ∧ (g c a).fillStyle = c.fillStyle)
    (l : List α) (ctx : Ctx) :
    (l.foldl g ctx).ops = ctx.ops ++ l.flatMap (out ctx.fillStyle) ∧
      (l.foldl g ctx).fillStyle = ctx.fillStyle := by
  induction l generalizing ctx with
  | nil => simp
  | cons a t ih =>
    obtain ⟨h1, h2⟩ := ih (g ctx a)
    rw [List.foldl_cons, h1, h2, (hg ctx a).1, (hg ctx a).2, List.flatMap_cons,
      List.append_assoc]
    exact ⟨rfl, rfl⟩

theorem filter_flatMap {α β : Type} (P : α → Bool) (f : α → List β) (l : List α) :
    (l.filter P).flatMap f = l.flatMap (fun a => if P a then f a else []) := by
  induction l with
  | nil => rfl
  | cons a t ih =>
    by_cases h : P a = true
    · rw [List.filter_cons_of_pos h, List.flatMap_cons, List.flatMap_cons, ih, if_pos h]
    · rw [List.filter_cons_of_neg h, List.flatMap_cons, ih, if_neg h, List.nil_append]

theorem map_flatMap {α β γ : Type} (f : β → List γ) (g : α → β) (l : List α) :
    (l.map g).flatMap f = l.flatMap (fun a => f (g a)) := by
  induction l with
  | nil => rfl
  | cons a t ih => rw [List.map_cons, List.flatMap_cons, List.flatMap_cons, ih]

theorem product_flatMap {α β γ : Type} (f : α × β → List γ) (l1 : List α) (l2 : List β) :
    (List.product l1 l2).flatMap f = l1.flatMap (fun a => l2.flatMap (fun b => f (a, b))) := by
  unfold List.product
  induction l1 with
  | nil => rfl
  | cons a t ih =>
    rw [List.flatMap_cons, List.flatMap_append, ih, List.flatMap_cons, map_flatMap]

/-- Inside the grid `isInFinder` is membership in one of the three finder
blocks. -/
theorem isInFinder_iff (n x y : Nat) (hn : 7 ≤ n) (hx : x < n) (hy : y < n) :
    isInFinder x y n = true ↔ Claims.inFinderBlock n x y := by
  unfold isInFinder Claims.inFinderBlock Claims.inBlock
  simp only [Bool.or_eq_true, Bool.and_eq_true, decide_eq_true_eq]
  constructor
  · rintro ((⟨h1, h2⟩ | ⟨h1, h2⟩) | ⟨h1, h2⟩)
    · left; omega
    · right; left; omega
    · right; right; omega
  · rintro (h | h | h)
    · left; left; omega
    · left; right; omega
    · right; omega

/-- The operations the two nested loops append, with the test of the source. -/
theorem moduleLoop_ops (ctx : Ctx) (qr : ModuleGrid) (n : Nat) (S : Int) (offset cell : ℚ) :
    (moduleLoop ctx qr n S offset cell).ops =
        ctx.ops ++ ((Claims.gridCells n).filter
          (fun p => qr.isDark p.1 p.2 && !isInFinder p.2 p.1 n)).flatMap
          (fun p => Claims.cellOps S offset cell ctx.fillStyle p.2 p.1) ∧
      (moduleLoop ctx qr n S offset cell).fillStyle = ctx.fillStyle := by
  let g : Nat → Ctx → Nat → Ctx := fun y c x =>
    if (!qr.isDark y x) = true then c
    else if isInFinder x y n = true then c
    else drawModule c S offset cell x y
  let out : Nat → String → Nat → List DrawOp := fun y fs x =>
    if (qr.isDark y x && !isInFinder x y n) = true
    then Claims.cellOps S offset cell fs x y else []
  have inner : ∀ (y : Nat) (c : Ctx) (x : Nat),
      (g y c x).ops = c.ops ++ out y c.fillStyle x ∧ (g y c x).fillStyle = c.fillStyle := by
    intro y c x
    simp only [g, out]
    cases hd : qr.isDark y x <;> cases hf : isInFinder (x : Int) y n <;>
      simp [drawModule_ops]
  have row : ∀ (c : Ctx) (y : Nat),
      ((List.range n).foldl (g y) c).ops =
          c.ops ++ (List.range n).flatMap (out y c.fillStyle) ∧
        ((List.range n).foldl (g y) c).fillStyle = c.fillStyle :=
    fun c y => foldl_ops (g y) (out y) (inner y) (List.range n) c
  have outer := foldl_ops (fun c y => (List.range n).foldl (g y) c)
    (fun fs y => (List.range n).flatMap (out y fs)) row (List.range n) ctx
  unfold moduleLoop Claims.gridCells
  rw [filter_flatMap, product_flatMap]
  exact outer

/-- For a cell size other than 0, different cells are drawn as different
operations. -/
theorem cellOps_injective (S : Int) (offset cell : ℚ) (hc : cell ≠ 0) (fillStyle : String)
    (x y x1 y1 : Nat)
    (h : Claims.cellOps S offset cell fillStyle x y = Claims.cellOps S offset cell fillStyle x1 y1) :
    x = x1 ∧ y = y1 := by
  unfold Claims.cellOps drawModule roundRect at h
  split_ifs at h <;>
    simp [Ctx.fill, Ctx.arc, Ctx.beginPath, Ctx.fillRect, Ctx.closePath, Ctx.arcTo, Ctx.moveTo,
      hc] at h
  · exact ⟨h.1, h.2⟩
  · exact h.1
  · exact ⟨h.1, h.2⟩

/-- C9: for every grid side `n >= 21`, every module grid and every style, the
two nested loops of the raster path append, row by row, the operations of
exactly those cells `(x, y)` of the grid that are dark and lie outside the
three 7x7 finder blocks; each such cell contributes exactly one operation, a
cell inside a finder block contributes none whatever its value is, the
enumeration visits every cell of the grid exactly once, and for a cell size
other than 0 the operations of different cells differ. -/
theorem moduleLoop_draws (qr : ModuleGrid) (hn : 21 ≤ qr.moduleCount) (S : Int)
    (offset cell : ℚ) (ctx : Ctx) :
    (moduleLoop ctx qr qr.moduleCount S offset cell).ops =
        ctx.ops ++ ((Claims.gridCells qr.moduleCount).filter
          (fun p => qr.isDark p.1 p.2 &&
            !decide (Claims.inFinderBlock qr.moduleCount p.2 p.1))).flatMap
          (fun p => Claims.cellOps S offset cell ctx.fillStyle p.2 p.1) ∧
      (∀ x y, (Claims.cellOps S offset cell ctx.fillStyle x y).length = 1) ∧
      (Claims.gridCells qr.moduleCount).Nodup ∧
      (∀ x y, (y, x) ∈ Claims.gridCells qr.moduleCount ↔
        x < qr.moduleCount ∧ y < qr.moduleCount) ∧
      (cell ≠ 0 → ∀ x y x1 y1,
        Claims.cellOps S offset cell ctx.fillStyle x y =
          Claims.cellOps S offset cell ctx.fillStyle x1 y1 → x = x1 ∧ y = y1) := by
  refine ⟨?_, fun x y => cellOps_length S offset cell ctx.fillStyle x y, ?_, ?_,
    fun hc x y x1 y1 h => cellOps_injective S offset cell hc ctx.fillStyle x y x1 y1 h⟩
  · rw [(moduleLoop_ops ctx qr qr.moduleCount S offset cell).1]
    congr 2
    apply List.filter_congr
    rintro ⟨y, x⟩ hp
    have hm : y < qr.moduleCount ∧ x < qr.moduleCount := by
      simpa [Claims.gridCells, List.pair_mem_product] using hp
    have hiff := isInFinder_iff qr.moduleCount x y (by omega) hm.2 hm.1
    by_cases hb : Claims.inFinderBlock qr.moduleCount x y
    · simp [hb, hiff.2 hb]
    · have : isInFinder (x : Int) y qr.moduleCount = false := by
        rw [Bool.eq_false_iff]
        exact fun h => hb (hiff.1 h)
      simp [hb, this]
  · exact List.Nodup.product (List.nodup_range _) (List.nodup_range _)
  · intro x y
    simp only [Claims.gridCells, List.pair_mem_product, List.mem_range]
    exact And.comm

/-- Witness of C9: on a 21 x 21 grid that is dark everywhere, the loop draws
the cells outside the finder blocks and nothing else. -/
theorem moduleLoop_draws_witness :
    21 ≤ (ModuleGrid.mk 21 (fun _ _ => true)).moduleCount ∧
      (moduleLoop Ctx.fresh ⟨21, fun _ _ => true⟩ 21 1 4 2).ops =
        Ctx.fresh.ops ++ ((Claims.gridCells 21).filter
          (fun p => (ModuleGrid.mk 21 (fun _ _ => true)).isDark p.1 p.2 &&
            !decide (Claims.inFinderBlock 21 p.2 p.1))).flatMap
          (fun p => Claims.cellOps 1 4 2 Ctx.fresh.fillStyle p.2 p.1) :=
  ⟨by decide, (moduleLoop_draws ⟨21, fun _ _ => true⟩ (by decide) 1 4 2 Ctx.fresh).1⟩

/-! ## Geometry of the raster path -/

theorem inBox_mono (x0 x1 y0 y1 a0 a1 b0 b1 : ℚ) (op : DrawOp)
    (h : Claims.inBox x0 x1 y0 y1 op) (hx0 : a0 ≤ x0) (hx1 : x1 ≤ a1) (hy0 : b0 ≤ y0)
    (hy1 : y1 ≤ b1) : Claims.inBox a0 a1 b0 b1 op := by
  intro p hp
  obtain ⟨h1, h2, h3, h4⟩ := h p hp
  exact ⟨le_trans hx0 h1, le_trans h2 hx1, le_trans hy0 h3, le_trans h4 hy1⟩

/-- The clamped radius of `roundRect` lies between 0 and each side. -/
theorem clamped_radius_bounds (w h r : ℚ) (hw : 0 ≤ w) (hh : 0 ≤ h) :
    0 ≤ max 0 (min r (min w h / 2)) ∧ max 0 (min r (min w h / 2)) ≤ w ∧
      max 0 (min r (min w h / 2)) ≤ h := by
  have h1 : min w h ≤ w := min_le_left _ _
  have h2 : min w h ≤ h := min_le_right _ _
  have h3 : 0 ≤ min w h := le_min hw hh
  have h4 : min r (min w h / 2) ≤ min w h / 2 := min_le_right _ _
  refine ⟨le_max_left _ _, max_le hw ?_, max_le hh ?_⟩ <;> linarith

/-- The filled path of `roundRect` lies in the rectangle it rounds. -/
theorem roundRect_fill_inBox (ctx : Ctx) (x y w h r : ℚ) (hw : 0 ≤ w) (hh : 0 ≤ h) :
    ∃ op, (roundRect ctx x y w h r).fill.ops = ctx.ops ++ [op] ∧
      Claims.inBox x (x + w) y (y + h) op := by
  obtain ⟨r0, r1, -⟩ := clamped_radius_bounds w h r hw hh
  refine ⟨_, by simp only [roundRect, Ctx.fill, Ctx.closePath, Ctx.arcTo, Ctx.moveTo,
    Ctx.beginPath]; rfl, ?_⟩
  intro p hp
  simp only [Claims.opExtent, Claims.pathExtent, List.nil_append, List.flatMap_cons,
    List.flatMap_nil, List.cons_append, List.append_nil, List.mem_cons, List.not_mem_nil,
    or_false] at hp
  rcases hp with rfl | rfl | rfl | rfl | rfl | rfl | rfl | rfl | rfl <;>
    refine ⟨?_, ?_, ?_, ?_⟩ <;> simp only <;> linarith

theorem fillRect_inBox (ctx : Ctx) (x y w h : ℚ) (hw : 0 ≤ w) (hh : 0 ≤ h) :
    ∃ op, (ctx.fillRect x y w h).ops = ctx.ops ++ [op] ∧
      Claims.inBox x (x + w) y (y + h) op := by
  refine ⟨_, rfl, ?_⟩
  intro p hp
  simp only [Claims.opExtent, List.mem_cons, List.not_mem_nil, or_false] at hp
  rcases hp with rfl | rfl <;> refine ⟨?_, ?_, ?_, ?_⟩ <;> simp only <;> linarith

/-- One step of `drawFinder`: a square of side `k * cell` at `(x, y)`, rounded
for style 3, drawn after the fill colour was set. -/
theorem finder_square_inBox (ctx : Ctx) (style : Int) (x y side r : ℚ) (hs : 0 ≤ side) :
    ∃ op, (if style = 3 then (roundRect ctx x y side side r).fill
        else ctx.fillRect x y side side).ops = ctx.ops ++ [op] ∧
      Claims.inBox x (x + side) y (y + side) op := by
  split_ifs
  · exact roundRect_fill_inBox ctx x y side side r hs hs
  · exact fillRect_inBox ctx x y side side hs hs

/-- The three operations of `drawFinder` lie in the 7 x 7 cells of the finder,
and `drawFinder` appends them to what was drawn before. -/
theorem drawFinder_inBox (ctx : Ctx) (px py cell : ℚ) (color : String) (style : Int)
    (hc : 0 ≤ cell) :
    ∃ new, (drawFinder ctx px py cell color style).ops = ctx.ops ++ new ∧
      ∀ op ∈ new, Claims.inBox px (px + 7 * cell) py (py + 7 * cell) op := by
  unfold drawFinder
  dsimp only
  obtain ⟨op1, e1, b1⟩ := finder_square_inBox (ctx.setFillStyle color) style px py (7 * cell)
    (2.2 * cell) (by linarith)
  generalize (if style = 3 then
      (roundRect (ctx.setFillStyle color) px py (7 * cell) (7 * cell) (2.2 * cell)).fill
    else (ctx.setFillStyle color).fillRect px py (7 * cell) (7 * cell)) = c1 at e1 ⊢
  obtain ⟨op2, e2, b2⟩ := finder_square_inBox (c1.setFillStyle "#ffffff") style (px + cell)
    (py + cell) (5 * cell) (1.6 * cell) (by linarith)
  generalize (if style = 3 then
      (roundRect (c1.setFillStyle "#ffffff") (px + cell) (py + cell) (5 * cell) (5 * cell)
        (1.6 * cell)).fill
    else (c1.setFillStyle "#ffffff").fillRect (px + cell) (py + cell) (5 * cell) (5 * cell))
    = c2 at e2 ⊢
  obtain ⟨op3, e3, b3⟩ := finder_square_inBox (c2.setFillStyle color) style (px + 2 * cell)
    (py + 2 * cell) (3 * cell) (1.2 * cell) (by linarith)
  refine ⟨[op1, op2, op3], ?_, ?_⟩
  · rw [e3]
    simp only [Ctx.setFillStyle] at e1 e2 ⊢
    rw [e2, e1]
    simp
  · intro op hop
    simp only [List.mem_cons, List.not_mem_nil, or_false] at hop
    rcases hop with rfl | rfl | rfl
    · exact b1
    · exact inBox_mono _ _ _ _ _ _ _ _ _ b2 (by linarith) (by linarith) (by linarith)
        (by linarith)
    · exact inBox_mono _ _ _ _ _ _ _ _ _ b3 (by linarith) (by linarith) (by linarith)
        (by linarith)

/-- The operation of a cell lies in the square of that cell. -/
theorem cellOps_inBox (S : Int) (offset cell : ℚ) (fillStyle : String) (x y : Nat)
    (hc : 0 ≤ cell) :
    ∀ op ∈ Claims.cellOps S offset cell fillStyle x y,
      Claims.inBox (offset + x * cell) (offset + x * cell + cell) (offset + y * cell)
        (offset + y * cell + cell) op := by
  intro op hop
  unfold Claims.cellOps drawModule at hop
  split_ifs at hop with h2 h3
  · simp only [Ctx.fill, Ctx.arc, Ctx.beginPath, List.nil_append, List.mem_singleton] at hop
    subst hop
    intro p hp
    simp only [Claims.opExtent, Claims.pathExtent, List.flatMap_cons, List.flatMap_nil,
      List.append_nil, List.mem_cons, List.not_mem_nil, or_false] at hp
    rcases hp with rfl | rfl <;> refine ⟨?_, ?_, ?_, ?_⟩ <;> simp only <;> norm_num <;>
      linarith
  · obtain ⟨op1, e1, b1⟩ := roundRect_fill_inBox
      { fillStyle := fillStyle, path := [], ops := [] } (offset + x * cell + cell * 0.08)
      (offset + y * cell + cell * 0.08) (cell * 0.84) (cell * 0.84) (cell * 0.28)
      (by norm_num; linarith) (by norm_num; linarith)
    rw [e1] at hop
    simp only [List.nil_append, List.mem_singleton] at hop
    subst hop
    refine inBox_mono _ _ _ _ _ _ _ _ _ b1 ?_ ?_ ?_ ?_ <;> norm_num <;> linarith
  · obtain ⟨op1, e1, b1⟩ := fillRect_inBox
      { fillStyle := fillStyle, path := [], ops := [] } (offset + x * cell)
      (offset + y * cell) cell cell hc hc
    rw [e1] at hop
    simp only [List.nil_append, List.mem_singleton] at hop
    subst hop
    exact b1

/-- The cell size is positive and the symbol with its quiet zone spans the
canvas. -/
theorem geometry_facts (W : Int) (n : Nat) (m : Int) (hW : 0 < W) (hn : 0 < n) (hm : 0 ≤ m) :
    0 < cell W n m ∧ 0 ≤ offset W n m ∧
      offset W n m + n * cell W n m + offset W n m = W := by
  have ht : (0 : ℚ) < ((n : Int) + 2 * m : Int) := by
    have : (0 : Int) < (n : Int) + 2 * m := by omega
    exact_mod_cast this
  have hWq : (0 : ℚ) < (W : ℚ) := by exact_mod_cast hW
  have hmq : (0 : ℚ) ≤ (m : ℚ) := by exact_mod_cast hm
  have hc : 0 < cell W n m := by
    unfold cell
    exact div_pos hWq ht
  refine ⟨hc, ?_, ?_⟩
  · unfold offset
    exact mul_nonneg hmq (le_of_lt hc)
  · unfold offset cell
    have hne : (((n : Int) + 2 * m : Int) : ℚ) ≠ 0 := ne_of_gt ht
    field_simp
    ring

/-- The three finders are appended to what was drawn before, and each lies
between the quiet zones. -/
theorem drawFinders_inBox (ctx : Ctx) (n : Nat) (off c hi : ℚ) (dark : String) (S : Int)
    (hn : 7 ≤ n) (hc : 0 ≤ c) (hhi : off + n * c = hi) :
    ∃ new, (drawFinders ctx n off c dark S).ops = ctx.ops ++ new ∧
      ∀ op ∈ new, Claims.inBox off hi off hi op := by
  have hn7 : (7 : ℚ) ≤ (n : ℚ) := by exact_mod_cast hn
  have hnc : 0 ≤ ((n : ℚ) - 7) * c := mul_nonneg (by linarith) hc
  unfold drawFinders
  dsimp only
  obtain ⟨n1, e1, b1⟩ := drawFinder_inBox ctx (off + 0 * c) (off + 0 * c) c dark S hc
  generalize drawFinder ctx (off + 0 * c) (off + 0 * c) c dark S = c1 at e1 ⊢
  obtain ⟨n2, e2, b2⟩ := drawFinder_inBox c1 (off + ((n : ℚ) - 7) * c) (off + 0 * c) c dark S hc
  generalize drawFinder c1 (off + ((n : ℚ) - 7) * c) (off + 0 * c) c dark S = c2 at e2 ⊢
  obtain ⟨n3, e3, b3⟩ := drawFinder_inBox c2 (off + 0 * c) (off + ((n : ℚ) - 7) * c) c dark S hc
  refine ⟨n1 ++ (n2 ++ n3), ?_, ?_⟩
  · rw [e3, e2, e1]
    simp
  · intro op hop
    simp only [List.mem_append] at hop
    rcases hop with h | h | h
    · refine inBox_mono _ _ _ _ _ _ _ _ _ (b1 op h) ?_ ?_ ?_ ?_ <;> nlinarith
    · refine inBox_mono _ _ _ _ _ _ _ _ _ (b2 op h) ?_ ?_ ?_ ?_ <;> nlinarith
    · refine inBox_mono _ _ _ _ _ _ _ _ _ (b3 op h) ?_ ?_ ?_ ?_ <;> nlinarith

/-- The operations of the module loop lie between the quiet zones. -/
theorem moduleLoop_inBox (ctx : Ctx) (qr : ModuleGrid) (n : Nat) (S : Int) (off c hi : ℚ)
    (hc : 0 ≤ c) (hhi : off + n * c = hi) :
    ∃ new, (moduleLoop ctx qr n S off c).ops = ctx.ops ++ new ∧
      ∀ op ∈ new, Claims.inBox off hi off hi op := by
  refine ⟨_, (moduleLoop_ops ctx qr n S off c).1, ?_⟩
  intro op hop
  simp only [List.mem_flatMap, List.mem_filter] at hop
  obtain ⟨⟨y, x⟩, ⟨hp, -⟩, hmem⟩ := hop
  have hxy : y < n ∧ x < n := by
    simpa [Claims.gridCells, List.pair_mem_product] using hp
  have hx : ((x : ℚ) + 1) ≤ (n : ℚ) := by exact_mod_cast hxy.2
  have hy : ((y : ℚ) + 1) ≤ (n : ℚ) := by exact_mod_cast hxy.1
  have hx0 : (0 : ℚ) ≤ (x : ℚ) := Nat.cast_nonneg x
  have hy0 : (0 : ℚ) ≤ (y : ℚ) := Nat.cast_nonneg y
  have b := cellOps_inBox S off c ctx.fillStyle x y hc op hmem
  refine inBox_mono _ _ _ _ _ _ _ _ _ b ?_ ?_ ?_ ?_ <;> nlinarith

/-- The path of `roundRect` starts afresh and does not depend on the context;
its corner arcs use the clamped radius. -/
theorem roundRect_path (ctx : Ctx) (x y w h r : ℚ) :
    (roundRect ctx x y w h r).path = Claims.roundedRectPath x y w h r ∧
      Claims.roundedRectPath x y w h r =
        [.moveTo (x + Claims.clampedRadius w h r) y,
         .arcTo (x + w) y (x + w) (y + h) (Claims.clampedRadius w h r),
         .arcTo (x + w) (y + h) x (y + h) (Claims.clampedRadius w h r),
         .arcTo x (y + h) x y (Claims.clampedRadius w h r),
         .arcTo x y (x + w) y (Claims.clampedRadius w h r),
         .closePath] ∧
      (roundRect ctx x y w h r).ops = ctx.ops ∧
      (roundRect ctx x y w h r).fillStyle = ctx.fillStyle := by
  simp [roundRect, Claims.roundedRectPath, Claims.clampedRadius, Ctx.closePath, Ctx.arcTo,
    Ctx.moveTo, Ctx.beginPath, Ctx.fresh]

/-- Filling after `roundRect` appends one filled rounded rectangle. -/
theorem roundRect_fill (ctx : Ctx) (x y w h r : ℚ) :
    (roundRect ctx x y w h r).fill.ops =
        ctx.ops ++ [.fill (Claims.roundedRectPath x y w h r) ctx.fillStyle] ∧
      (roundRect ctx x y w h r).fill.fillStyle = ctx.fillStyle := by
  obtain ⟨h1, -, h3, h4⟩ := roundRect_path ctx x y w h r
  simp only [Ctx.fill, h1, h3, h4, and_self]

/-- The three fills of `drawFinder` for a style other than 3. -/
theorem drawFinder_square (ctx : Ctx) (px py cell : ℚ) (color : String) (style : Int)
    (hs : style ≠ 3) :
    (drawFinder ctx px py cell color style).ops =
      ctx.ops ++ [.fillRect px py (7 * cell) (7 * cell) color,
        .fillRect (px + cell) (py + cell) (5 * cell) (5 * cell) "#ffffff",
        .fillRect (px + 2 * cell) (py + 2 * cell) (3 * cell) (3 * cell) color] := by
  simp [drawFinder, hs, Ctx.fillRect, Ctx.setFillStyle]

/-- The three fills of `drawFinder` for style 3. -/
theorem drawFinder_rounded (ctx : Ctx) (px py cell : ℚ) (color : String) :
    (drawFinder ctx px py cell color 3).ops =
      ctx.ops ++ [.fill (Claims.roundedRectPath px py (7 * cell) (7 * cell) (2.2 * cell)) color,
        .fill (Claims.roundedRectPath (px + cell) (py + cell) (5 * cell) (5 * cell)
          (1.6 * cell)) "#ffffff",
        .fill (Claims.roundedRectPath (px + 2 * cell) (py + 2 * cell) (3 * cell) (3 * cell)
          (1.2 * cell)) color] := by
  simp only [drawFinder, if_true]
  rw [(roundRect_fill _ _ _ _ _ _).1]
  simp only [Ctx.setFillStyle]
  rw [(roundRect_fill _ _ _ _ _ _).1]
  simp only []
  rw [(roundRect_fill _ _ _ _ _ _).1]
  simp

/-- After `drawFinder` the fill colour is the colour passed to it. -/
theorem drawFinder_fillStyle (ctx : Ctx) (px py cell : ℚ) (color : String) (style : Int) :
    (drawFinder ctx px py cell color style).fillStyle = color := by
  unfold drawFinder
  dsimp only
  split_ifs
  · rw [(roundRect_fill _ _ _ _ _ _).2]
    rfl
  · rfl

/-- The operations of `drawFinder` are appended and do not depend on the
context. -/
theorem drawFinder_ops (ctx : Ctx) (px py cell : ℚ) (color : String) (style : Int) :
    (drawFinder ctx px py cell color style).ops =
      ctx.ops ++ Claims.finderOps px py cell color style := by
  unfold Claims.finderOps
  by_cases hs : style = 3
  · subst hs
    rw [drawFinder_rounded, drawFinder_rounded]
    rfl
  · rw [drawFinder_square _ _ _ _ _ _ hs, drawFinder_square _ _ _ _ _ _ hs]
    rfl

/-- The operation of a cell, style by style. -/
theorem cellOps_eq (S : Int) (offset cell : ℚ) (fillStyle : String) (x y : Nat) :
    (S = 2 → Claims.cellOps S offset cell fillStyle x y =
      [.fill [.arc (offset + x * cell + cell / 2) (offset + y * cell + cell / 2)
        (cell * 0.42) 0 1] fillStyle]) ∧
    (S = 3 → Claims.cellOps S offset cell fillStyle x y =
      [.fill (Claims.roundedRectPath (offset + x * cell + cell * 0.08)
        (offset + y * cell + cell * 0.08) (cell * 0.84) (cell * 0.84) (cell * 0.28))
        fillStyle]) ∧
    (S ≠ 2 → S ≠ 3 → Claims.cellOps S offset cell fillStyle x y =
      [.fillRect (offset + x * cell) (offset + y * cell) cell cell fillStyle]) := by
  refine ⟨?_, ?_, ?_⟩
  · rintro rfl
    simp [Claims.cellOps, drawModule, Ctx.fill, Ctx.arc, Ctx.beginPath]
  · rintro rfl
    unfold Claims.cellOps drawModule
    rw [if_neg (by decide), if_pos rfl, (roundRect_fill _ _ _ _ _ _).1]
    rfl
  · intro h2 h3
    simp [Claims.cellOps, drawModule, h2, h3, Ctx.fillRect]

/-- Everything `paint` draws, in order: the background, then the finder and
module operations. -/
theorem paint_ops (qr : ModuleGrid) (W S : Int) (dark background : String) (m : Int) :
    (paint qr W S dark background m).ops =
      (drawBackground Ctx.fresh background W).ops ++ Claims.symbolOps qr W S dark m := by
  unfold paint Claims.symbolOps
  dsimp only
  rw [(moduleLoop_ops _ _ _ _ _ _).1]
  unfold drawFinders
  dsimp only
  rw [drawFinder_fillStyle, drawFinder_ops, drawFinder_ops, drawFinder_ops]
  simp [Ctx.setFillStyle]

/-- The background step draws one operation over the whole canvas. -/
theorem drawBackground_ops (background : String) (W : Int) :
    (drawBackground Ctx.fresh background W).ops =
      [if background = "transparent" then .clearRect 0 0 W W
        else .fillRect 0 0 W W background] := by
  unfold drawBackground
  by_cases h : background = "transparent"
  · simp [h, Ctx.clearRect, Ctx.fresh]
  · simp [h, Ctx.fillRect, Ctx.setFillStyle, Ctx.fresh]

/-- For a cell size that is not negative the clamp of `roundRect` keeps the
radii the renderer asks for. -/
theorem clampedRadius_requested (cell : ℚ) (hc : 0 ≤ cell) :
    Claims.clampedRadius (7 * cell) (7 * cell) (2.2 * cell) = 2.2 * cell ∧
      Claims.clampedRadius (5 * cell) (5 * cell) (1.6 * cell) = 1.6 * cell ∧
      Claims.clampedRadius (3 * cell) (3 * cell) (1.2 * cell) = 1.2 * cell ∧
      Claims.clampedRadius (cell * 0.84) (cell * 0.84) (cell * 0.28) = cell * 0.28 := by
  unfold Claims.clampedRadius
  simp only [min_self]
  refine ⟨?_, ?_, ?_, ?_⟩
  · rw [min_eq_left (by norm_num; linarith), max_eq_right (by norm_num; linarith)]
  · rw [min_eq_left (by norm_num; linarith), max_eq_right (by norm_num; linarith)]
  · rw [min_eq_left (by norm_num; linarith), max_eq_right (by norm_num; linarith)]
  · rw [min_eq_left (by norm_num; linarith), max_eq_right (by norm_num; linarith)]

/-- C12: for every cell `(x, y)` of the grid that is dark and outside the
finder blocks, with `(px, py) = (offset + x * cell, offset + y * cell)`, the
module loop draws the operation of that cell, which is: for style 2 a filled
circle with centre `(px + cell / 2, py + cell / 2)` and radius `0.42 * cell`;
for style 3 a filled rounded rectangle at `(px + 0.08 * cell, py + 0.08 * cell)`
of side `0.84 * cell` whose corner arcs have radius `0.28 * cell`; for style 1
(every style other than 2 and 3) a filled square at `(px, py)` of side
`cell`. -/
theorem module_shapes (qr : ModuleGrid) (n : Nat) (hn : 21 ≤ n) (S : Int) (offset cell : ℚ)
    (hc : 0 ≤ cell) (ctx : Ctx) (x y : Nat) (hx : x < n) (hy : y < n)
    (hd : qr.isDark y x = true) (hf : ¬ Claims.inFinderBlock n x y) :
    (∀ op ∈ Claims.cellOps S offset cell ctx.fillStyle x y,
      op ∈ (moduleLoop ctx qr n S offset cell).ops) ∧
    (S = 2 → Claims.cellOps S offset cell ctx.fillStyle x y =
      [.fill [.arc (offset + x * cell + cell / 2) (offset + y * cell + cell / 2)
        (cell * 0.42) 0 1] ctx.fillStyle]) ∧
    (S = 3 → Claims.cellOps S offset cell ctx.fillStyle x y =
      [.fill [.moveTo (offset + x * cell + cell * 0.08 + cell * 0.28)
          (offset + y * cell + cell * 0.08),
        .arcTo (offset + x * cell + cell * 0.08 + cell * 0.84)
          (offset + y * cell + cell * 0.08)
          (offset + x * cell + cell * 0.08 + cell * 0.84)
          (offset + y * cell + cell * 0.08 + cell * 0.84) (cell * 0.28),
        .arcTo (offset + x * cell + cell * 0.08 + cell * 0.84)
          (offset + y * cell + cell * 0.08 + cell * 0.84)
          (offset + x * cell + cell * 0.08)
          (offset + y * cell + cell * 0.08 + cell * 0.84) (cell * 0.28),
        .arcTo (offset + x * cell + cell * 0.08)
          (offset + y * cell + cell * 0.08 + cell * 0.84)
          (offset + x * cell + cell * 0.08) (offset + y * cell + cell * 0.08) (cell * 0.28),
        .arcTo (offset + x * cell + cell * 0.08) (offset + y * cell + cell * 0.08)
          (offset + x * cell + cell * 0.08 + cell * 0.84)
          (offset + y * cell + cell * 0.08) (cell * 0.28),
        .closePath] ctx.fillStyle]) ∧
    (S ≠ 2 → S ≠ 3 → Claims.cellOps S offset cell ctx.fillStyle x y =
      [.fillRect (offset + x * cell) (offset + y * cell) cell cell ctx.fillStyle]) := by
  obtain ⟨h2, h3, h1⟩ := cellOps_eq S offset cell ctx.fillStyle x y
  refine ⟨?_, h2, ?_, h1⟩
  · intro op hop
    rw [(moduleLoop_ops ctx qr n S offset cell).1]
    apply List.mem_append_right
    rw [List.mem_flatMap]
    refine ⟨(y, x), ?_, hop⟩
    rw [List.mem_filter]
    refine ⟨by simp [Claims.gridCells, List.pair_mem_product, hx, hy], ?_⟩
    have hnf : isInFinder (x : Int) y n = false := by
      rw [Bool.eq_false_iff]
      exact fun h => hf ((isInFinder_iff n x y (by omega) hx hy).1 h)
    simp [hd, hnf]
  · intro hS
    rw [h3 hS, (roundRect_path Ctx.fresh _ _ _ _ _).2.1, (clampedRadius_requested cell hc).2.2.2]

/-- Witness of C12 on a 21 x 21 grid that is dark everywhere, at the cell in
column 8 and row 9, with offset 4 and cell size 2, for style 1. -/
theorem module_shapes_witness :
    DrawOp.fillRect (4 + (8 : Nat) * 2) (4 + (9 : Nat) * 2) 2 2 "#000000" ∈
        (moduleLoop Ctx.fresh ⟨21, fun _ _ => true⟩ 21 1 4 2).ops ∧
      Claims.cellOps 1 4 2 Ctx.fresh.fillStyle 8 9 =
        [.fillRect (4 + (8 : Nat) * 2) (4 + (9 : Nat) * 2) 2 2 Ctx.fresh.fillStyle] := by
  have h := module_shapes ⟨21, fun _ _ => true⟩ 21 (by decide) 1 4 2 (by norm_num) Ctx.fresh
    8 9 (by decide) (by decide) rfl (by decide)
  have he := h.2.2.2 (by decide) (by decide)
  refine ⟨h.1 _ ?_, he⟩
  rw [he]
  exact List.mem_singleton.2 rfl

/-! ## The background -/

theorem toLowerCaseChar_ne_nil (c : Char) : toLowerCaseChar c ≠ [] := by
  unfold toLowerCaseChar
  split_ifs <;> simp

/-- A character whose lower case starts with a letter of `transparent` has
that letter as its ASCII lower case, and nothing follows. -/
theorem toLowerCaseChar_head_letter (c a : Char) (r : List Char)
    (ha : a ∈ ['t', 'r', 'a', 'n', 's', 'p', 'e']) (h : toLowerCaseChar c = a :: r) :
    r = [] ∧ c.toLower = a := by
  unfold toLowerCaseChar at h
  split_ifs at h with h1 h2 h3
  · rw [char_le_iff, char_le_iff] at h1
    have := char_mem_range c _ _ h1.1 h1.2
    simp [List.range'] at this
    rcases this with e | e | e | e | e | e | e | e | e | e | e | e | e | e | e | e | e | e | e
      | e | e | e | e | e | e | e <;> subst e <;> simp at h <;> obtain ⟨h, rfl⟩ := h <;>
      subst h <;> exact ⟨rfl, by decide⟩
  · exfalso
    simp only [List.cons.injEq] at h
    obtain ⟨h, -⟩ := h
    subst h
    revert ha
    decide
  · exfalso
    simp only [List.cons.injEq] at h
    obtain ⟨h, -⟩ := h
    subst h
    revert ha
    decide
  · simp only [List.cons.injEq] at h
    obtain ⟨rfl, rfl⟩ := h
    refine ⟨rfl, ?_⟩
    fin_cases ha <;> decide

/-- A character whose ASCII lower case is a letter of `transparent` is
lower-cased to that letter. -/
theorem toLowerCaseChar_of_toLower (c a : Char)
    (ha : a ∈ ['t', 'r', 'a', 'n', 's', 'p', 'e']) (h : c.toLower = a) :
    toLowerCaseChar c = [a] := by
  by_cases h1 : 'A' ≤ c ∧ c ≤ 'Z'
  · have h2 : c.toNat ≥ 65 ∧ c.toNat ≤ 90 := by
      rw [char_le_iff, char_le_iff] at h1
      exact h1
    have hl : c.toLower = Char.ofNat (c.toNat + 32) := by
      unfold Char.toLower
      dsimp only
      rw [if_pos h2]
    unfold toLowerCaseChar
    rw [if_pos h1, ← hl, h]
  · have h2 : ¬ (c.toNat ≥ 65 ∧ c.toNat ≤ 90) := by
      rw [char_le_iff, char_le_iff] at h1
      exact h1
    have hl : c.toLower = c := by
      unfold Char.toLower
      dsimp only
      rw [if_neg h2]
    rw [hl] at h
    subst h
    fin_cases ha <;> decide

/-- Lower-casing gives a word made of letters of `transparent` exactly when
the ASCII lower case of the input is that word. -/
theorem flatMap_lower_eq_iff (l t : List Char)
    (ht : ∀ a ∈ t, a ∈ ['t', 'r', 'a', 'n', 's', 'p', 'e']) :
    l.flatMap toLowerCaseChar = t ↔ l.map Char.toLower = t := by
  induction l generalizing t with
  | nil => simp
  | cons c l1 ih =>
    rw [List.flatMap_cons, List.map_cons]
    cases t with
    | nil =>
      constructor
      · intro h
        simp only [List.append_eq_nil] at h
        exact absurd h.1 (toLowerCaseChar_ne_nil c)
      · intro h
        simp at h
    | cons a t1 =>
      have ha := ht a (List.mem_cons_self _ _)
      have ht1 : ∀ b ∈ t1, b ∈ ['t', 'r', 'a', 'n', 's', 'p', 'e'] :=
        fun b hb => ht b (List.mem_cons_of_mem _ hb)
      constructor
      · intro h
        cases hc : toLowerCaseChar c with
        | nil => exact absurd hc (toLowerCaseChar_ne_nil c)
        | cons b r =>
          rw [hc] at h
          simp only [List.cons_append, List.cons.injEq] at h
          obtain ⟨hba, h⟩ := h
          subst hba
          obtain ⟨hr, hlow⟩ := toLowerCaseChar_head_letter c b r ha hc
          subst hr
          rw [hlow, (ih t1 ht1).1 (by simpa using h)]
      · intro h
        simp only [List.cons.injEq] at h
        obtain ⟨hlow, h⟩ := h
        rw [toLowerCaseChar_of_toLower c a ha hlow, (ih t1 ht1).2 h]
        rfl

theorem toLowerCase_transparent_iff (s : String) :
    toLowerCase s = "transparent" ↔ Claims.equalsIgnoringCase s "transparent" := by
  unfold toLowerCase Claims.equalsIgnoringCase
  have key := flatMap_lower_eq_iff s.data "transparent".data (by decide)
  have hmap : "transparent".data.map Char.toLower = "transparent".data := by decide
  rw [hmap, ← key]
  constructor
  · intro h
    exact congrArg String.data h
  · intro h
    rw [h]

/-- The string the background test lower-cases is the string form of the
input, or the empty string for a missing or empty input. -/
theorem falsyToString_empty (v : QueryValue) :
    (falsyToString v "" = v.toStr) ∨ (v = .undefined ∧ falsyToString v "" = "") := by
  cases v with
  | undefined => exact Or.inr ⟨rfl, rfl⟩
  | str s =>
    left
    unfold falsyToString
    simp only [QueryValue.toStr]
    split_ifs with h
    · exact h.symm
    · rfl
  | arr _ => exact Or.inl rfl
  | obj _ => exact Or.inl rfl

theorem background_iff (v : QueryValue) :
    background v = "transparent" ↔ Claims.equalsIgnoringCase v.toStr "transparent" := by
  have hb : background v = "transparent" ↔
      toLowerCase (falsyToString v "") = "transparent" := by
    unfold background
    split_ifs with h
    · exact ⟨fun _ => h, fun _ => rfl⟩
    · exact ⟨fun e => absurd e (by decide), fun e => absurd e h⟩
  rw [hb]
  rcases falsyToString_empty v with e | ⟨rfl, e⟩
  · rw [e]
    exact toLowerCase_transparent_iff _
  · rw [e]
    decide

/-- C13: for every `bg` input the resolved background is `transparent` exactly
when the input (a string, or the string form of an array) equals the word
`transparent` with letter case ignored, and `#ffffff` for every other input,
a missing one included; the background is the first operation on the canvas,
it covers `(0, 0, W, W)`, and the finder and module operations follow it. -/
theorem background_resolved (v : QueryValue) :
    (background v = "transparent" ↔ Claims.equalsIgnoringCase v.toStr "transparent") ∧
    (¬ Claims.equalsIgnoringCase v.toStr "transparent" → background v = "#ffffff") ∧
    background .undefined = "#ffffff" ∧
    (∀ W : Int, (drawBackground Ctx.fresh (background v) W).ops =
      [if background v = "transparent" then DrawOp.clearRect 0 0 W W
        else DrawOp.fillRect 0 0 W W "#ffffff"]) ∧
    (∀ (qr : ModuleGrid) (W S : Int) (dark : String) (m : Int),
      (paint qr W S dark (background v) m).ops =
        (drawBackground Ctx.fresh (background v) W).ops ++ Claims.symbolOps qr W S dark m) := by
  refine ⟨background_iff v, ?_, by decide, ?_, fun qr W S dark m => paint_ops qr W S dark _ m⟩
  · intro h
    have hn : ¬ background v = "transparent" := fun e => h ((background_iff v).1 e)
    unfold background at hn ⊢
    split_ifs with h1
    · rw [if_pos h1] at hn
      exact absurd rfl hn
    · rfl
  · intro W
    rw [drawBackground_ops]
    by_cases h : background v = "transparent"
    · rw [if_pos h, if_pos h]
    · rw [if_neg h, if_neg h]
      have hw : background v = "#ffffff" := by
        unfold background at h ⊢
        split_ifs with h1
        · rw [if_pos h1] at h
          exact absurd rfl h
        · rfl
      rw [hw]

/-- Witness of C13: `TransParent` resolves to `transparent`, `clear` to
`#ffffff`. -/
theorem background_resolved_witness :
    Claims.equalsIgnoringCase (QueryValue.str "TransParent").toStr "transparent" ∧
      background (.str "TransParent") = "transparent" ∧
      ¬ Claims.equalsIgnoringCase (QueryValue.str "clear").toStr "transparent" ∧
      background (.str "clear") = "#ffffff" :=
  ⟨by decide, (background_resolved (.str "TransParent")).1.2 (by decide), by decide,
    (background_resolved (.str "clear")).2.1 (by decide)⟩

/-! ## The fill colour, the finder blocks and the radii -/

/-- The three operations one call of `drawFinder` draws. -/
theorem finderOps_eq (px py cell : ℚ) (c : String) (style : Int) :
    (style ≠ 3 → Claims.finderOps px py cell c style =
      [.fillRect px py (7 * cell) (7 * cell) c,
        .fillRect (px + cell) (py + cell) (5 * cell) (5 * cell) "#ffffff",
        .fillRect (px + 2 * cell) (py + 2 * cell) (3 * cell) (3 * cell) c]) ∧
    (style = 3 → Claims.finderOps px py cell c style =
      [.fill (Claims.roundedRectPath px py (7 * cell) (7 * cell) (2.2 * cell)) c,
        .fill (Claims.roundedRectPath (px + cell) (py + cell) (5 * cell) (5 * cell)
          (1.6 * cell)) "#ffffff",
        .fill (Claims.roundedRectPath (px + 2 * cell) (py + 2 * cell) (3 * cell) (3 * cell)
          (1.2 * cell)) c]) := by
  unfold Claims.finderOps
  constructor
  · intro hs
    rw [drawFinder_square _ _ _ _ _ _ hs]
    rfl
  · rintro rfl
    rw [drawFinder_rounded]
    rfl

theorem finderOps_colours (px py cell : ℚ) (c : String) (style : Int) :
    (Claims.finderOps px py cell c style).map Claims.opColour =
      [some c, some "#ffffff", some c] := by
  by_cases hs : style = 3
  · rw [(finderOps_eq px py cell c style).2 hs]
    rfl
  · rw [(finderOps_eq px py cell c style).1 hs]
    rfl

theorem finderOps_length (px py cell : ℚ) (c : String) (style : Int) :
    (Claims.finderOps px py cell c style).length = 3 := by
  have h := congrArg List.length (finderOps_colours px py cell c style)
  simpa using h

theorem cellOps_colour (S : Int) (offset cell : ℚ) (c : String) (x y : Nat) :
    ∀ op ∈ Claims.cellOps S offset cell c x y, Claims.opColour op = some c := by
  intro op hop
  obtain ⟨h2, h3, h1⟩ := cellOps_eq S offset cell c x y
  by_cases e2 : S = 2
  · rw [h2 e2] at hop
    rw [List.mem_singleton.1 hop]
    rfl
  · by_cases e3 : S = 3
    · rw [h3 e3] at hop
      rw [List.mem_singleton.1 hop]
      rfl
    · rw [h1 e2 e3] at hop
      rw [List.mem_singleton.1 hop]
      rfl

theorem drawFinders_fillStyle (ctx : Ctx) (n : Nat) (offset cell : ℚ) (c : String) (S : Int) :
    (drawFinders ctx n offset cell c S).fillStyle = c := by
  unfold drawFinders
  exact drawFinder_fillStyle _ _ _ _ _ _

/-- After the background and the nine finder fills, the canvas holds the
operations of the module loop. -/
theorem paint_drop_ten (qr : ModuleGrid) (W S : Int) (c background : String) (m : Int) :
    (paint qr W S c background m).ops.drop 10 =
      ((Claims.gridCells qr.moduleCount).filter
        (fun p => qr.isDark p.1 p.2 && !isInFinder p.2 p.1 qr.moduleCount)).flatMap
        (fun p => Claims.cellOps S (offset W qr.moduleCount m) (cell W qr.moduleCount m)
          c p.2 p.1) := by
  rw [paint_ops, drawBackground_ops]
  unfold Claims.symbolOps
  rw [← List.append_assoc, ← List.append_assoc, ← List.append_assoc,
    List.drop_left' (by
      simp only [List.length_append, List.length_singleton, finderOps_length])]

/-- C14: in the raster path, for every style and every resolved colour `c`,
the fill colour of the context is `c` after each `drawFinder` call and after
the three of them, although the second of the three fills of a finder is
drawn in `#ffffff`; the module loop keeps the fill colour, every module
operation is filled with `c`, and on the canvas every operation after the
background and the nine finder fills is filled with `c`, for style 2 as for
the others. -/
theorem fill_colour_kept (ctx : Ctx) (qr : ModuleGrid) (n : Nat) (W S : Int)
    (px py offset cell : ℚ) (c background : String) (m : Int) :
    (drawFinder ctx px py cell c S).fillStyle = c ∧
    (Claims.finderOps px py cell c S).map Claims.opColour =
      [some c, some "#ffffff", some c] ∧
    (drawFinders ctx n offset cell c S).fillStyle = c ∧
    (moduleLoop (drawFinders ctx n offset cell c S) qr n S offset cell).fillStyle = c ∧
    (∀ x y, ∀ op ∈ Claims.cellOps S offset cell c x y, Claims.opColour op = some c) ∧
    (∀ op ∈ (paint qr W S c background m).ops.drop 10, Claims.opColour op = some c) := by
  refine ⟨drawFinder_fillStyle _ _ _ _ _ _, finderOps_colours _ _ _ _ _,
    drawFinders_fillStyle _ _ _ _ _ _, ?_, fun x y => cellOps_colour S offset cell c x y, ?_⟩
  · rw [(moduleLoop_ops _ _ _ _ _ _).2, drawFinders_fillStyle]
  · intro op hop
    rw [paint_drop_ten, List.mem_flatMap] at hop
    obtain ⟨p, -, hp⟩ := hop
    exact cellOps_colour _ _ _ _ _ _ op hp

/-- Witness of C14: on a 21 x 21 grid that is dark everywhere, drawn in style
2 with colour `#ff0000`, the operation of the cell in column 7 and row 0 comes
after the first ten and is filled with `#ff0000`. -/
theorem fill_colour_kept_witness :
    DrawOp.fill [.arc (offset 128 21 2 + (7 : Nat) * cell 128 21 2 + cell 128 21 2 / 2)
        (offset 128 21 2 + (0 : Nat) * cell 128 21 2 + cell 128 21 2 / 2)
        (cell 128 21 2 * 0.42) 0 1] "#ff0000" ∈
        (paint ⟨21, fun _ _ => true⟩ 128 2 "#ff0000" "#ffffff" 2).ops.drop 10 ∧
      Claims.opColour (DrawOp.fill
        [.arc (offset 128 21 2 + (7 : Nat) * cell 128 21 2 + cell 128 21 2 / 2)
          (offset 128 21 2 + (0 : Nat) * cell 128 21 2 + cell 128 21 2 / 2)
          (cell 128 21 2 * 0.42) 0 1] "#ff0000") = some "#ff0000" := by
  have hmem : DrawOp.fill
      [.arc (offset 128 21 2 + (7 : Nat) * cell 128 21 2 + cell 128 21 2 / 2)
        (offset 128 21 2 + (0 : Nat) * cell 128 21 2 + cell 128 21 2 / 2)
        (cell 128 21 2 * 0.42) 0 1] "#ff0000" ∈
      (paint ⟨21, fun _ _ => true⟩ 128 2 "#ff0000" "#ffffff" 2).ops.drop 10 := by
    rw [paint_drop_ten, List.mem_flatMap]
    refine ⟨(0, 7), ?_, ?_⟩
    · rw [List.mem_filter]
      exact ⟨by decide, by decide⟩
    · rw [(cellOps_eq 2 _ _ _ _ _).1 rfl]
      exact List.mem_singleton.2 rfl
  exact ⟨hmem, (fill_colour_kept Ctx.fresh ⟨21, fun _ _ => true⟩ 21 128 2 0 0 0 1 "#ff0000"
    "#ffffff" 2).2.2.2.2.2 _ hmem⟩

/-- C15: for every `n >= 21` and every cell `(x, y)` of the grid,
`isInFinder(x, y, n)` is true exactly when the cell lies in one of the three
7x7 blocks with top-left corners `(0, 0)`, `(n - 7, 0)` and `(0, n - 7)`;
these blocks are pairwise disjoint, and a cell of the bottom-right 7x7 block
is not in a finder. -/
theorem isInFinder_blocks (n : Nat) (hn : 21 ≤ n) (x y : Nat) (hx : x < n) (hy : y < n) :
    (isInFinder x y n = true ↔
      (Claims.inBlock 0 0 x y ∨ Claims.inBlock (n - 7) 0 x y ∨ Claims.inBlock 0 (n - 7) x y)) ∧
    ¬ (Claims.inBlock 0 0 x y ∧ Claims.inBlock (n - 7) 0 x y) ∧
    ¬ (Claims.inBlock 0 0 x y ∧ Claims.inBlock 0 (n - 7) x y) ∧
    ¬ (Claims.inBlock (n - 7) 0 x y ∧ Claims.inBlock 0 (n - 7) x y) ∧
    (Claims.inBlock (n - 7) (n - 7) x y → isInFinder x y n = false) := by
  have hiff := isInFinder_iff n x y (by omega) hx hy
  unfold Claims.inFinderBlock at hiff
  refine ⟨hiff, ?_, ?_, ?_, ?_⟩
  · unfold Claims.inBlock
    omega
  · unfold Claims.inBlock
    omega
  · unfold Claims.inBlock
    omega
  · intro hb
    rw [Bool.eq_false_iff]
    intro ht
    have := hiff.1 ht
    unfold Claims.inBlock at this hb
    omega

/-- Witness of C15 for `n = 21`: the cell in column 20 and row 3 is in the
top-right block, the cell in column 20 and row 20 is in no finder. -/
theorem isInFinder_blocks_witness :
    (isInFinder (20 : Nat) (3 : Nat) (21 : Nat) = true ↔
      (Claims.inBlock 0 0 20 3 ∨ Claims.inBlock (21 - 7) 0 20 3 ∨
        Claims.inBlock 0 (21 - 7) 20 3)) ∧
      Claims.inBlock (21 - 7) (21 - 7) 20 20 ∧
      isInFinder (20 : Nat) (20 : Nat) (21 : Nat) = false :=
  ⟨(isInFinder_blocks 21 (by decide) 20 3 (by decide) (by decide)).1, by decide,
    (isInFinder_blocks 21 (by decide) 20 20 (by decide) (by decide)).2.2.2.2 (by decide)⟩

theorem cornerRadii_roundedRectPath (x y w h r : ℚ) :
    Claims.cornerRadii (Claims.roundedRectPath x y w h r) =
      [Claims.clampedRadius w h r, Claims.clampedRadius w h r, Claims.clampedRadius w h r,
        Claims.clampedRadius w h r] := by
  rw [(roundRect_path Ctx.fresh x y w h r).2.1]
  rfl

/-- C16: for every cell size `cell > 0` the radius clamp of `roundRect`,
`rr = max(0, min(r, min(w, h) / 2))`, leaves the requested radii unchanged:
the corner arcs of the three finder squares of style 3 have the radii
`2.2 * cell`, `1.6 * cell` and `1.2 * cell`, strictly decreasing with the
nesting depth, and those of the style-3 module have the radius
`0.28 * cell`. -/
theorem radius_clamp_identity (cell : ℚ) (hc : 0 < cell) (ctx : Ctx) (x y w h r : ℚ)
    (px py offset : ℚ) (c fillStyle : String) (col row : Nat) :
    Claims.cornerRadii (roundRect ctx x y w h r).path =
      [max 0 (min r (min w h / 2)), max 0 (min r (min w h / 2)),
        max 0 (min r (min w h / 2)), max 0 (min r (min w h / 2))] ∧
    Claims.clampedRadius (7 * cell) (7 * cell) (2.2 * cell) = 2.2 * cell ∧
    Claims.clampedRadius (5 * cell) (5 * cell) (1.6 * cell) = 1.6 * cell ∧
    Claims.clampedRadius (3 * cell) (3 * cell) (1.2 * cell) = 1.2 * cell ∧
    Claims.clampedRadius (cell * 0.84) (cell * 0.84) (cell * 0.28) = cell * 0.28 ∧
    (Claims.finderOps px py cell c 3).map Claims.opCornerRadii =
      [[2.2 * cell, 2.2 * cell, 2.2 * cell, 2.2 * cell],
        [1.6 * cell, 1.6 * cell, 1.6 * cell, 1.6 * cell],
        [1.2 * cell, 1.2 * cell, 1.2 * cell, 1.2 * cell]] ∧
    (1.6 * cell < 2.2 * cell ∧ 1.2 * cell < 1.6 * cell) ∧
    (Claims.cellOps 3 offset cell fillStyle col row).map Claims.opCornerRadii =
      [[cell * 0.28, cell * 0.28, cell * 0.28, cell * 0.28]] := by
  obtain ⟨h7, h5, h3, hm⟩ := clampedRadius_requested cell (le_of_lt hc)
  refine ⟨?_, h7, h5, h3, hm, ?_, ⟨by norm_num; linarith, by norm_num; linarith⟩, ?_⟩
  · rw [(roundRect_path ctx x y w h r).1, cornerRadii_roundedRectPath]
    rfl
  · rw [(finderOps_eq px py cell c 3).2 rfl]
    simp only [List.map_cons, List.map_nil, Claims.opCornerRadii, cornerRadii_roundedRectPath,
      h7, h5, h3]
  · rw [(cellOps_eq 3 offset cell fillStyle col row).2.1 rfl]
    simp only [List.map_cons, List.map_nil, Claims.opCornerRadii, cornerRadii_roundedRectPath,
      hm]

/-- Witness of C16 at cell size 10: the radii are 22, 16, 12 and 2.8. -/
theorem radius_clamp_identity_witness :
    (0 : ℚ) < 10 ∧
      Claims.clampedRadius (7 * 10) (7 * 10) (2.2 * 10) = 2.2 * 10 ∧
      Claims.clampedRadius (5 * 10) (5 * 10) (1.6 * 10) = 1.6 * 10 ∧
      Claims.clampedRadius (3 * 10) (3 * 10) (1.2 * 10) = 1.2 * 10 ∧
      Claims.clampedRadius (10 * 0.84) (10 * 0.84) (10 * 0.28) = 10 * 0.28 :=
  ⟨by norm_num,
    (radius_clamp_identity 10 (by norm_num) Ctx.fresh 0 0 0 0 0 0 0 0 "" "" 0 0).2.1,
    (radius_clamp_identity 10 (by norm_num) Ctx.fresh 0 0 0 0 0 0 0 0 "" "" 0 0).2.2.1,
    (radius_clamp_identity 10 (by norm_num) Ctx.fresh 0 0 0 0 0 0 0 0 "" "" 0 0).2.2.2.1,
    (radius_clamp_identity 10 (by norm_num) Ctx.fresh 0 0 0 0 0 0 0 0 "" "" 0 0).2.2.2.2.1⟩

/-! ## The range of `parseSize`, the cell squares and the two copies -/

theorem server_parseSize_range (v : QueryValue) :
    128 ≤ Server.parseSize v ∧ Server.parseSize v ≤ 2048 := by
  unfold Server.parseSize
  dsimp only
  split
  · split
    · decide
    · split
      · exact ⟨le_max_left _ _, max_le (by norm_num) (min_le_left _ _)⟩
      · decide
  · decide

/-- C17: for every input whatsoever, `parseSize` of both source files returns
an integer in `[128, 2048]`; the string `10x10`, which matches the pattern
with both dimensions below 128, yields 128 and not the default 500. -/
theorem parseSize_range (v : QueryValue) :
    (128 ≤ V1.parseSize v ∧ V1.parseSize v ≤ 2048) ∧
      (128 ≤ Server.parseSize v ∧ Server.parseSize v ≤ 2048) ∧
      V1.parseSize (.str "10x10") = 128 ∧ Server.parseSize (.str "10x10") = 128 := by
  rw [V1.parseSize_eq_server]
  exact ⟨server_parseSize_range v, server_parseSize_range v, by decide, by decide⟩

/-- The tight box of the dot and of the rounded square: the cell's square
shrunk by `0.08 * cell` on every side. -/
theorem cellOps_inset (S : Int) (hS : S = 2 ∨ S = 3) (offset cell : ℚ) (hc : 0 ≤ cell)
    (fillStyle : String) (x y : Nat) :
    ∀ op ∈ Claims.cellOps S offset cell fillStyle x y,
      Claims.inBox (offset + x * cell + 0.08 * cell) (offset + x * cell + cell - 0.08 * cell)
        (offset + y * cell + 0.08 * cell) (offset + y * cell + cell - 0.08 * cell) op := by
  intro op hop
  obtain ⟨h2, h3, -⟩ := cellOps_eq S offset cell fillStyle x y
  rcases hS with e | e
  · rw [h2 e] at hop
    rw [List.mem_singleton.1 hop]
    intro p hp
    simp only [Claims.opExtent, Claims.pathExtent, List.flatMap_cons, List.flatMap_nil,
      List.append_nil, List.mem_cons, List.not_mem_nil, or_false] at hp
    rcases hp with rfl | rfl <;> refine ⟨?_, ?_, ?_, ?_⟩ <;> simp only <;> norm_num <;>
      linarith
  · rw [h3 e] at hop
    rw [List.mem_singleton.1 hop]
    obtain ⟨op1, e1, b1⟩ := roundRect_fill_inBox
      { fillStyle := fillStyle, path := [], ops := [] } (offset + x * cell + cell * 0.08)
      (offset + y * cell + cell * 0.08) (cell * 0.84) (cell * 0.84) (cell * 0.28)
      (by norm_num; linarith) (by norm_num; linarith)
    rw [(roundRect_fill _ _ _ _ _ _).1] at e1
    simp only [List.nil_append, List.cons.injEq, and_true] at e1
    rw [e1]
    refine inBox_mono _ _ _ _ _ _ _ _ _ b1 ?_ ?_ ?_ ?_ <;> norm_num <;> linarith

/-- C19: the two copies of the parameter normalisers agree: for every input,
`parseSize`, `parseColorNoHash` and `parseStyle` of `v1.js` return the same
value as the functions of the same name of `server.js`. -/
theorem normalisers_agree (v : QueryValue) :
    V1.parseSize v = Server.parseSize v ∧
      V1.parseColorNoHash v = Server.parseColorNoHash v ∧
      V1.parseStyle v = Server.parseStyle v :=
  ⟨V1.parseSize_eq_server v, V1.parseColorNoHash_eq_server v, V1.parseStyle_eq_server v⟩

end QRCode
